import Mathlib

/-!
Verification of the channels-server channel-subscription registry.

This file gives a shallow embedding of the ChannelManager class of
src/channelManager.ts and proves properties of its operations.

JavaScript Map and Set preserve insertion order, so maps are modelled as
association lists (first occurrence wins; keys are never duplicated by the
operations below) and sets as duplicate-free lists in insertion order.
A JS Map.set on an existing key replaces the value in place, keeping the
key position; Map.delete and Set.delete remove the entry; these are the
aset / adel / sadd / sdel operations below.
-/

namespace Channels

/-- Association-list lookup: the value of the first pair whose key matches,
modelling JS Map.get. -/
def aget {K V : Type} [DecidableEq K] : List (K × V) → K → Option V
  | [], _ => none
  | p :: rest, k => if p.1 = k then some p.2 else aget rest k

/-- Association-list update, modelling JS Map.set: replace the value in
place if the key is present, otherwise append the new pair. -/
def aset {K V : Type} [DecidableEq K] : List (K × V) → K → V → List (K × V)
  | [], k, v => [(k, v)]
  | p :: rest, k, v => if p.1 = k then (k, v) :: rest else p :: aset rest k v

/-- Association-list removal, modelling JS Map.delete. -/
def adel {K V : Type} [DecidableEq K] (l : List (K × V)) (k : K) : List (K × V) :=
  l.filter (fun p => decide (¬ p.1 = k))

/-- Ordered-set insertion, modelling JS Set.add: append if not present. -/
def sadd {α : Type} [DecidableEq α] (l : List α) (a : α) : List α :=
  if a ∈ l then l else l ++ [a]

/-- Ordered-set removal, modelling JS Set.delete. -/
def sdel {α : Type} [DecidableEq α] (l : List α) (a : α) : List α :=
  l.filter (fun x => decide (¬ x = a))

/-- The readyState of a ws WebSocket (CONNECTING, OPEN, CLOSING, CLOSED). -/
inductive ReadyState where
  | connecting
  | opened
  | closing
  | closed
deriving DecidableEq, Repr

/-- The WebSocketAuthToken payload of src/types.ts, attached to a connection
after JWT verification. -/
structure WebSocketAuthToken where
  userId : String
  name : Option String
  image : Option String
  exp : Nat
deriving DecidableEq, Repr

/-- A WebSocket connection handle. The id field stands for JS reference
identity; readyState is the transport liveness at the instant modelled;
user is the verified identity attached at accept time (absent on
unauthenticated transports). -/
structure WS where
  id : Nat
  readyState : ReadyState
  user : Option WebSocketAuthToken
deriving DecidableEq, Repr

/-- The WSEventType enum of src/types.ts. -/
inductive WSEventType where
  | SUBSCRIBE
  | NEW_MESSAGE
  | MESSAGE_UPDATE
  | MESSAGE_DELETE
  | MEMBER_TYPING
  | MEMBER_STOP_TYPING
  | MEMBER_STATUS_UPDATE
deriving DecidableEq, Repr

/-- The TypingUser record of channelManager.ts. -/
structure TypingUser where
  userId : String
  username : String
  timestamp : Nat
deriving DecidableEq, Repr

/-- The data objects passed to ChannelManager.broadcast by the manager
itself, one constructor per object-literal shape in the source; message is
an opaque externally supplied payload (ingestion endpoint). -/
inductive WSData where
  | memberStatus (userId : String) (isOnline : Bool) (onlineUsers : List String)
  | typingList (typingUsers : List TypingUser)
  | stopTyping (userId : String) (username : String)
      (remainingTypingUsers : Option (List TypingUser))
  | message (payload : String)
deriving DecidableEq, Repr

/-- The ChannelSubscription record of channelManager.ts. userInfo is an
opaque payload. -/
structure ChannelSubscription where
  ws : WS
  userId : String
  userInfo : String
deriving DecidableEq, Repr

/-- One invocation of this.broadcast(channelName, event, data) recorded as
an emission event. -/
structure BroadcastCall where
  channelName : String
  event : WSEventType
  data : WSData
deriving DecidableEq, Repr

/-- The five private maps of the ChannelManager class. -/
structure ManagerState where
  channels : List (String × List ChannelSubscription)
  wsToChannels : List (WS × List String)
  typingUsers : List (String × List (String × TypingUser))
  wsToUser : List (WS × String)
  onlineUsers : List (String × List String)
deriving DecidableEq, Repr

/-- The state built by the ChannelManager constructor: all maps empty. -/
def initState : ManagerState :=
  { channels := [], wsToChannels := [], typingUsers := [], wsToUser := [], onlineUsers := [] }

/-- The subscriber set of a channel; an absent map entry reads as empty. -/
def chanSubs (s : ManagerState) (ch : String) : List ChannelSubscription :=
  (aget s.channels ch).getD []

/-- The subscribed-channel set of a connection; absent entry reads empty. -/
def wsChans (s : ManagerState) (ws : WS) : List String :=
  (aget s.wsToChannels ws).getD []

/-- The online presence set of a channel; absent entry reads empty. -/
def online (s : ManagerState) (ch : String) : List String :=
  (aget s.onlineUsers ch).getD []

/-- ChannelManager.updateOnlineStatus: ensure the presence set exists, add
or delete the userId, then broadcast MEMBER_STATUS_UPDATE carrying a
snapshot of the set after the mutation. -/
def updateOnlineStatus (s : ManagerState) (serverId userId : String) (isOnline : Bool) :
    ManagerState × List BroadcastCall :=
  let serverUsers := (aget s.onlineUsers serverId).getD []
  let serverUsers2 := if isOnline then sadd serverUsers userId else sdel serverUsers userId
  let s2 := { s with onlineUsers := aset s.onlineUsers serverId serverUsers2 }
  (s2, [⟨serverId, .MEMBER_STATUS_UPDATE, .memberStatus userId isOnline serverUsers2⟩])

/-- ChannelManager.subscribe. Rejects silently when the verified identity
differs from the claimed userId; otherwise ensures the channel set,
skips a duplicate (same ws and userId), else records wsToUser, adds the
subscription, indexes the channel for the ws and fires the presence
update. -/
def subscribe (s : ManagerState) (channelName : String) (subscription : ChannelSubscription) :
    ManagerState × List BroadcastCall :=
  if ∃ t, subscription.ws.user = some t ∧ ¬ t.userId = subscription.userId then
    (s, [])
  else
    let channels1 := if (aget s.channels channelName).isSome then s.channels
                     else aset s.channels channelName []
    let channel := (aget channels1 channelName).getD []
    let s1 := { s with channels := channels1 }
    if ∃ c ∈ channel, c.ws = subscription.ws ∧ c.userId = subscription.userId then
      (s1, [])
    else
      let s2 := { s1 with wsToUser := aset s1.wsToUser subscription.ws subscription.userId }
      let s3 := { s2 with channels := aset s2.channels channelName (channel ++ [subscription]) }
      let wsChannelSet := (aget s3.wsToChannels subscription.ws).getD []
      let s4 := { s3 with
        wsToChannels := aset s3.wsToChannels subscription.ws (sadd wsChannelSet channelName) }
      updateOnlineStatus s4 channelName subscription.userId true

/-- Removal of the first subscription of a given ws from a channel set,
modelling the for-of loop with break in ChannelManager.unsubscribe. -/
def removeFirstWs : List ChannelSubscription → WS → List ChannelSubscription
  | [], _ => []
  | sub :: rest, ws => if sub.ws = ws then rest else sub :: removeFirstWs rest ws

/-- ChannelManager.unsubscribe: no-op on a missing channel; otherwise
remove the first subscription of the ws, drop the channel from the ws
index (purging the index entry and the wsToUser entry when the index
entry empties), and delete the channel entry when its set empties. -/
def unsubscribe (s : ManagerState) (channelName : String) (ws : WS) : ManagerState :=
  match aget s.channels channelName with
  | none => s
  | some channel =>
    let channel2 := removeFirstWs channel ws
    let s1 := { s with channels := aset s.channels channelName channel2 }
    let s2 :=
      match aget s1.wsToChannels ws with
      | none => s1
      | some chs =>
        let chs2 := sdel chs channelName
        if chs2.length = 0 then
          { s1 with wsToChannels := adel s1.wsToChannels ws, wsToUser := adel s1.wsToUser ws }
        else
          { s1 with wsToChannels := aset s1.wsToChannels ws chs2 }
    if channel2.length = 0 then { s2 with channels := adel s2.channels channelName } else s2

/-- ChannelManager.handleTyping: ensure the per-channel typing map, then
either insert or refresh the entry (broadcasting MEMBER_TYPING with the
full set) or delete it (broadcasting MEMBER_STOP_TYPING with the
remaining set). The Date.now() value is the now argument. -/
def handleTyping (s : ManagerState) (channelName userId username : String)
    (isTyping : Bool) (now : Nat) : ManagerState × List BroadcastCall :=
  let typing1 := if (aget s.typingUsers channelName).isSome then s.typingUsers
                 else aset s.typingUsers channelName []
  let channelTyping := (aget typing1 channelName).getD []
  if isTyping then
    let channelTyping2 := aset channelTyping userId ⟨userId, username, now⟩
    ({ s with typingUsers := aset typing1 channelName channelTyping2 },
     [⟨channelName, .MEMBER_TYPING, .typingList (channelTyping2.map (fun (p : String × TypingUser) => p.2))⟩])
  else
    let channelTyping2 := adel channelTyping userId
    ({ s with typingUsers := aset typing1 channelName channelTyping2 },
     [⟨channelName, .MEMBER_STOP_TYPING,
       .stopTyping userId username (some (channelTyping2.map (fun (p : String × TypingUser) => p.2)))⟩])

/-- TYPING_TIMEOUT of startTypingCleanup, in milliseconds. -/
def TYPING_TIMEOUT : Nat := 3000

/-- One tick of the setInterval callback in
ChannelManager.startTypingCleanup: for every channel, delete each entry
whose age exceeds TYPING_TIMEOUT (broadcasting MEMBER_STOP_TYPING with
only the userId and username for each eviction), then drop a channel
whose typing map emptied. -/
def typingSweep (s : ManagerState) (now : Nat) : ManagerState × List BroadcastCall :=
  let results := s.typingUsers.map (fun entry =>
    let kept := entry.2.filter (fun p => decide (¬ now - p.2.timestamp > TYPING_TIMEOUT))
    let evicted := entry.2.filter (fun p => decide (now - p.2.timestamp > TYPING_TIMEOUT))
    (entry.1, kept, evicted))
  let typing2 := (results.filter (fun r => decide (¬ r.2.1.length = 0))).map
    (fun r => (r.1, r.2.1))
  let events := results.flatMap (fun r => r.2.2.map (fun p =>
    (⟨r.1, .MEMBER_STOP_TYPING, .stopTyping p.1 p.2.username none⟩ : BroadcastCall)))
  ({ s with typingUsers := typing2 }, events)

/-- One iteration of the per-channel loop of
ChannelManager.handleWebSocketClosure: presence-offline update, removal
of the typing entry of the disconnected user (with its stop-typing
broadcast, carrying the remaining set) and the unsubscribe call. -/
def teardownChannelStep (ws : WS) (userId : String)
    (acc : ManagerState × List BroadcastCall) (channelName : String) :
    ManagerState × List BroadcastCall :=
  let s := acc.1
  let r1 := updateOnlineStatus s channelName userId false
  let r2 :=
    match aget r1.1.typingUsers channelName with
    | none => (r1.1, ([] : List BroadcastCall))
    | some typingMap =>
      match aget typingMap userId with
      | none => (r1.1, [])
      | some user =>
        let typingMap2 := adel typingMap userId
        ({ r1.1 with typingUsers := aset r1.1.typingUsers channelName typingMap2 },
         [⟨channelName, .MEMBER_STOP_TYPING,
           .stopTyping userId user.username (some (typingMap2.map (fun (p : String × TypingUser) => p.2)))⟩])
  (unsubscribe r2.1 channelName ws, acc.2 ++ r1.2 ++ r2.2)

/-- ChannelManager.handleWebSocketClosure: when the ws has a channel index
entry and a truthy userId (JS: the empty string is falsy), process every
subscribed channel and then purge both ws maps; otherwise do nothing. -/
def handleWebSocketClosure (s : ManagerState) (ws : WS) : ManagerState × List BroadcastCall :=
  match aget s.wsToChannels ws, aget s.wsToUser ws with
  | some subscribedChannels, some userId =>
    if userId = "" then (s, [])
    else
      let r := subscribedChannels.foldl (teardownChannelStep ws userId) (s, [])
      ({ r.1 with wsToChannels := adel r.1.wsToChannels ws, wsToUser := adel r.1.wsToUser ws },
       r.2)
  | _, _ => (s, [])

/-- The frame JSON.stringify produces in ChannelManager.broadcast,
modelled abstractly as the pair serialized (the encoding is injective, so
frame equality is pair equality). -/
structure Message where
  event : WSEventType
  data : WSData
deriving DecidableEq, Repr

/-- The serialization JSON.stringify applied once per broadcast call. -/
def serializeMessage (event : WSEventType) (data : WSData) : Message :=
  ⟨event, data⟩

/-- The channel.forEach loop of ChannelManager.broadcast. sendThrows tells
which connections throw from ws.send; a throw escapes the forEach
callback, aborts the iteration and is caught by the try/catch wrapping
the whole loop, so the function returns the sends made so far. -/
def broadcastLoop (message : Message) (excludeWs : Option WS) (sendThrows : WS → Bool) :
    List ChannelSubscription → List (WS × Message)
  | [] => []
  | sub :: rest =>
    if some sub.ws = excludeWs then
      broadcastLoop message excludeWs sendThrows rest
    else if sub.ws.readyState = .opened then
      if sendThrows sub.ws then []
      else (sub.ws, message) :: broadcastLoop message excludeWs sendThrows rest
    else
      broadcastLoop message excludeWs sendThrows rest

/-- ChannelManager.broadcast, returning the list of deliveries: silent
no-op on a missing channel, otherwise serialize once and push the frame
to every subscriber of the channel set in order, skipping the excluded
ws and any non-open connection. broadcast never mutates the manager
state. -/
def broadcastSends (s : ManagerState) (channelName : String) (event : WSEventType)
    (data : WSData) (excludeWs : Option WS) (sendThrows : WS → Bool) : List (WS × Message) :=
  match aget s.channels channelName with
  | none => []
  | some channel =>
    let message := serializeMessage event data
    broadcastLoop message excludeWs sendThrows channel

/-- The wsToChannels update of cleanupInactiveConnections for one removed
subscription: drop the channel from that ws index entry, purging the
entry when it empties. -/
def removeClosedStep (channelName : String) (w : List (WS × List String))
    (sub : ChannelSubscription) : List (WS × List String) :=
  match aget w sub.ws with
  | none => w
  | some chs =>
    let chs2 := sdel chs channelName
    if chs2.length = 0 then adel w sub.ws else aset w sub.ws chs2

/-- The inner fold of cleanupInactiveConnections over the subscriptions
removed from one channel. -/
def removeClosedFromIndex (channelName : String) (w : List (WS × List String))
    (removed : List ChannelSubscription) : List (WS × List String) :=
  removed.foldl (removeClosedStep channelName) w

/-- Loop body of cleanupInactiveConnections for one channel entry: the
subscribers with non-open connections are removed (updating the ws index
for each), and the channel is kept only when open subscribers remain. -/
def cleanupStep (acc : List (String × List ChannelSubscription) × List (WS × List String))
    (entry : String × List ChannelSubscription) :
    List (String × List ChannelSubscription) × List (WS × List String) :=
  let kept := entry.2.filter (fun sub => decide (sub.ws.readyState = .opened))
  let removed := entry.2.filter (fun sub => decide (¬ sub.ws.readyState = .opened))
  let w2 := removeClosedFromIndex entry.1 acc.2 removed
  let chans2 := if kept.length = 0 then acc.1 else acc.1 ++ [(entry.1, kept)]
  (chans2, w2)

/-- ChannelManager.cleanupInactiveConnections: every subscription whose
connection is not open is removed from its channel (updating the ws
index), and a channel whose set empties is deleted. typingUsers,
wsToUser and onlineUsers are untouched. -/
def cleanupInactiveConnections (s : ManagerState) : ManagerState :=
  let r := s.channels.foldl cleanupStep ([], s.wsToChannels)
  { s with channels := r.1, wsToChannels := r.2 }

/-- The three registry operations the invariant claims quantify over:
subscribe, unsubscribe and connection teardown. -/
inductive Op where
  | sub (channelName : String) (subscription : ChannelSubscription)
  | unsub (channelName : String) (ws : WS)
  | close (ws : WS)

/-- State transition of a single operation (broadcast emissions dropped). -/
def applyOp (s : ManagerState) : Op → ManagerState
  | .sub ch subscription => (subscribe s ch subscription).1
  | .unsub ch ws => unsubscribe s ch ws
  | .close ws => (handleWebSocketClosure s ws).1

/-- Run a finite sequence of operations from the constructor state. -/
def runOps (ops : List Op) : ManagerState :=
  ops.foldl applyOp initState

/-- Bidirectional consistency of the two mirrored indexes: a channel set
holds a subscription of a ws exactly when the channel is in the ws
index entry. -/
def Bidi (s : ManagerState) : Prop :=
  ∀ ch ws, (∃ sub ∈ chanSubs s ch, sub.ws = ws) ↔ ch ∈ wsChans s ws

/-- Presence consistency: a userId is in a channel presence set exactly
when the channel holds a live subscription for that userId. -/
def Pres (s : ManagerState) : Prop :=
  ∀ ch u, u ∈ online s ch ↔ ∃ sub ∈ chanSubs s ch, sub.userId = u

/-- All channel subscriptions carry the fixed userId of their connection. -/
def SubUid (uidOf : WS → String) (s : ManagerState) : Prop :=
  ∀ ch, ∀ sub ∈ chanSubs s ch, sub.userId = uidOf sub.ws

/-- Every channel set holds at most one subscription per connection. -/
def UniqWs (s : ManagerState) : Prop :=
  ∀ ch ws, ((chanSubs s ch).filter (fun c => decide (c.ws = ws))).length ≤ 1

/-- Every connection with a channel-index entry has a wsToUser mapping
carrying its fixed userId. -/
def WuCoh (uidOf : WS → String) (s : ManagerState) : Prop :=
  ∀ ws, (aget s.wsToChannels ws).isSome = true → aget s.wsToUser ws = some (uidOf ws)

/-- All connections appearing in channel sets come from the list W. -/
def SubsIn (W : List WS) (s : ManagerState) : Prop :=
  ∀ ch, ∀ sub ∈ chanSubs s ch, sub.ws ∈ W

/-- The combined registry invariant used by the amended invariant claims. -/
structure Inv (uidOf : WS → String) (s : ManagerState) : Prop where
  bidi : Bidi s
  subUid : SubUid uidOf s
  uniqWs : UniqWs s
  wuCoh : WuCoh uidOf s

/-- The registry invariant extended with presence consistency and the
bound on the connections in use. -/
structure InvP (uidOf : WS → String) (W : List WS) (s : ManagerState)
    extends Inv uidOf s : Prop where
  pres : Pres s
  subsIn : SubsIn W s

/-- The connections of W carry pairwise distinct fixed userIds. -/
def DistinctUids (uidOf : WS → String) (W : List WS) : Prop :=
  ∀ w1 ∈ W, ∀ w2 ∈ W, uidOf w1 = uidOf w2 → w1 = w2

/-- Restriction of the amended bidirectional-consistency claim: every
subscribe operation claims the fixed userId of its connection. -/
def OpFixedUid (uidOf : WS → String) : Op → Prop
  | .sub _ subscription => subscription.userId = uidOf subscription.ws
  | .unsub _ _ => True
  | .close _ => True

/-- Restriction of the amended presence claim: subscribes claim the fixed
userId of a connection from W, teardowns act on connections from W, and
no standalone unsubscribe occurs. -/
def OpPresOk (uidOf : WS → String) (W : List WS) : Op → Prop
  | .sub _ subscription => subscription.userId = uidOf subscription.ws ∧ subscription.ws ∈ W
  | .unsub _ _ => False
  | .close ws => ws ∈ W

/-- Fixture connection with id 1, open, unauthenticated transport. -/
def fws1 : WS := ⟨1, .opened, none⟩

/-- Fixture connection with id 2, open, unauthenticated transport. -/
def fws2 : WS := ⟨2, .opened, none⟩

/-- Fixture connection with id 3, open, unauthenticated transport. -/
def fws3 : WS := ⟨3, .opened, none⟩

/-- Fixture connection with id 9 whose transport has closed. -/
def fwsClosed : WS := ⟨9, .closed, none⟩

/-- Teardown scenario: fws1 subscribed to channels a and b and typing
in a (entry inserted at time 0). -/
def teardownFixture : ManagerState :=
  (handleTyping (subscribe (subscribe initState "a" ⟨fws1, "u", "info"⟩).1
    "b" ⟨fws1, "u", "info"⟩).1 "a" "u" "uname" true 0).1

/-- Typing-expiry scenario: one typing entry inserted at time 0. -/
def typingFixture : ManagerState :=
  (handleTyping initState "general" "u" "name" true 0).1

/-- Broadcast scenario: channel x with subscribers fws1 and fws2, both
open. -/
def twoSubscriberFixture : ManagerState :=
  (subscribe (subscribe initState "x" ⟨fws1, "u1", "i1"⟩).1 "x" ⟨fws2, "u2", "i2"⟩).1

/-- A send oracle under which exactly the connection with id 1 throws. -/
def throwsOnWs1 : WS → Bool := fun w => decide (w.id = 1)

/-- A send oracle under which no send throws. -/
def noThrow : WS → Bool := fun _ => false

/-- Fan-out scenario: channel x with three open subscribers and one
closed one. -/
def fanoutFixture : ManagerState :=
  (subscribe (subscribe (subscribe (subscribe initState "x" ⟨fws1, "u1", "i1"⟩).1
    "x" ⟨fws2, "u2", "i2"⟩).1 "x" ⟨fws3, "u3", "i3"⟩).1 "x" ⟨fwsClosed, "u9", "i9"⟩).1

/-- Cleanup scenario: one channel whose only subscriber has closed. -/
def cleanupFixture : ManagerState :=
  (subscribe initState "x" ⟨fwsClosed, "u", "i"⟩).1

/-- A send oracle under which exactly the connection with id 2 throws. -/
def throwsOnWs2 : WS → Bool := fun w => decide (w.id = 2)

/-- Operation sequence exhibiting index divergence: one connection
subscribes to channel a under two userIds, then unsubscribes once. -/
def bidiCexOps : List Op :=
  [.sub "a" ⟨fws1, "u1", "i"⟩, .sub "a" ⟨fws1, "u2", "i"⟩, .unsub "a" fws1]

/-- Operation sequence exhibiting presence divergence: one subscribe
followed by a standalone unsubscribe. -/
def presCexOps : List Op :=
  [.sub "a" ⟨fws1, "u", "i"⟩, .unsub "a" fws1]

end Channels

namespace Channels

theorem aget_aset_self {K V : Type} [DecidableEq K] (l : List (K × V)) (k : K) (v : V) :
    aget (aset l k v) k = some v := by
  induction l with
  | nil => simp [aset, aget]
  | cons p rest ih =>
    by_cases h : p.1 = k
    · simp [aset, h, aget]
    · simp [aset, h, aget, ih]

theorem aget_aset_ne {K V : Type} [DecidableEq K] (l : List (K × V)) (k k2 : K) (v : V)
    (h : ¬ k2 = k) : aget (aset l k v) k2 = aget l k2 := by
  induction l with
  | nil => simp [aset, aget, Ne.symm h]
  | cons p rest ih =>
    by_cases hp : p.1 = k
    · simp [aset, aget, hp, Ne.symm h]
    · simp [aset, aget, hp, ih]

theorem aset_aset {K V : Type} [DecidableEq K] (l : List (K × V)) (k : K) (v1 v2 : V) :
    aset (aset l k v1) k v2 = aset l k v2 := by
  induction l with
  | nil => simp [aset]
  | cons p rest ih =>
    by_cases h : p.1 = k
    · simp [aset, h]
    · simp [aset, h, ih]

theorem adel_cons {K V : Type} [DecidableEq K] (p : K × V) (rest : List (K × V)) (k : K) :
    adel (p :: rest) k = if p.1 = k then adel rest k else p :: adel rest k := by
  by_cases h : p.1 = k <;> simp [adel, h]

theorem aget_adel_self {K V : Type} [DecidableEq K] (l : List (K × V)) (k : K) :
    aget (adel l k) k = none := by
  induction l with
  | nil => rfl
  | cons p rest ih =>
    rw [adel_cons]
    by_cases h : p.1 = k
    · simp [h, ih]
    · simp [h, aget, ih]

theorem aget_adel_ne {K V : Type} [DecidableEq K] (l : List (K × V)) (k k2 : K)
    (h : ¬ k2 = k) : aget (adel l k) k2 = aget l k2 := by
  induction l with
  | nil => rfl
  | cons p rest ih =>
    rw [adel_cons]
    by_cases hp : p.1 = k
    · simp [hp, aget, Ne.symm h, ih]
    · simp [hp, aget, ih]

theorem mem_sadd {α : Type} [DecidableEq α] (l : List α) (a b : α) :
    a ∈ sadd l b ↔ a ∈ l ∨ a = b := by
  by_cases h : b ∈ l
  · simp only [sadd, if_pos h]
    constructor
    · exact Or.inl
    · rintro (h1 | rfl)
      · exact h1
      · exact h
  · simp [sadd, h]

theorem mem_sdel {α : Type} [DecidableEq α] (l : List α) (a b : α) :
    a ∈ sdel l b ↔ a ∈ l ∧ ¬ a = b := by
  simp [sdel, List.mem_filter]

theorem ensure_getD {K V : Type} [DecidableEq K] (l : List (K × List V)) (k : K) :
    (aget (if (aget l k).isSome then l else aset l k []) k).getD [] = (aget l k).getD [] := by
  cases h : aget l k with
  | none => simp [h, aget_aset_self]
  | some v => simp [h]

theorem ensure_aget_ne {K V : Type} [DecidableEq K] (l : List (K × List V)) (k k2 : K)
    (h : ¬ k2 = k) :
    aget (if (aget l k).isSome then l else aset l k []) k2 = aget l k2 := by
  cases hh : aget l k with
  | none => simp [hh, aget_aset_ne _ _ _ _ h]
  | some v => simp [hh]

theorem ensure_aset {K V : Type} [DecidableEq K] (l : List (K × List V)) (k : K) (v : List V) :
    aset (if (aget l k).isSome then l else aset l k []) k v = aset l k v := by
  cases hh : aget l k with
  | none => simp [hh, aset_aset]
  | some v2 => simp [hh]

theorem subscribe_auth_reject (s : ManagerState) (channelName : String)
    (subscription : ChannelSubscription) (t : WebSocketAuthToken)
    (huser : subscription.ws.user = some t) (hne : ¬ t.userId = subscription.userId) :
    subscribe s channelName subscription = (s, []) := by
  unfold subscribe
  rw [if_pos ⟨t, huser, hne⟩]

theorem subscribe_dup (s : ManagerState) (channelName : String)
    (subscription : ChannelSubscription)
    (hauth : ¬ ∃ t, subscription.ws.user = some t ∧ ¬ t.userId = subscription.userId)
    (hdup : ∃ c ∈ chanSubs s channelName,
        c.ws = subscription.ws ∧ c.userId = subscription.userId) :
    subscribe s channelName subscription = (s, []) := by
  have hsome : (aget s.channels channelName).isSome = true := by
    rcases hdup with ⟨c, hc, _⟩
    cases h : aget s.channels channelName with
    | none => rw [chanSubs, h] at hc; simp at hc
    | some v => rfl
  have hch : chanSubs s channelName = (aget s.channels channelName).getD [] := rfl
  unfold subscribe
  rw [if_neg hauth]
  simp only [hsome, if_true]
  rw [if_pos (by rw [chanSubs] at hdup; exact hdup)]

theorem subscribe_main (s : ManagerState) (channelName : String)
    (subscription : ChannelSubscription)
    (hauth : ¬ ∃ t, subscription.ws.user = some t ∧ ¬ t.userId = subscription.userId)
    (hnew : ¬ ∃ c ∈ chanSubs s channelName,
        c.ws = subscription.ws ∧ c.userId = subscription.userId) :
    subscribe s channelName subscription =
      ({ channels := aset s.channels channelName (chanSubs s channelName ++ [subscription]),
         wsToChannels := aset s.wsToChannels subscription.ws
           (sadd (wsChans s subscription.ws) channelName),
         typingUsers := s.typingUsers,
         wsToUser := aset s.wsToUser subscription.ws subscription.userId,
         onlineUsers := aset s.onlineUsers channelName
           (sadd (online s channelName) subscription.userId) },
       [⟨channelName, .MEMBER_STATUS_UPDATE, .memberStatus subscription.userId true
         (sadd (online s channelName) subscription.userId)⟩]) := by
  rw [chanSubs] at hnew
  unfold subscribe updateOnlineStatus
  rw [if_neg hauth]
  simp only [ensure_getD]
  rw [if_neg hnew]
  simp [ensure_aset, chanSubs, wsChans, online]

end Channels

namespace Channels

theorem broadcastLoop_all_ok (message : Message) (excludeWs : Option WS)
    (sendThrows : WS → Bool) (channel : List ChannelSubscription)
    (h : ∀ sub ∈ channel, sendThrows sub.ws = false) :
    broadcastLoop message excludeWs sendThrows channel =
      (channel.filter (fun sub =>
          decide (¬ some sub.ws = excludeWs ∧ sub.ws.readyState = .opened))).map
        (fun sub => (sub.ws, message)) := by
  induction channel with
  | nil => rfl
  | cons a rest ih =>
    have ha := h a (by simp)
    have hrest : ∀ sub ∈ rest, sendThrows sub.ws = false :=
      fun sub hs => h sub (by simp [hs])
    by_cases h1 : some a.ws = excludeWs
    · simp [broadcastLoop, h1, ih hrest]
    · by_cases h2 : a.ws.readyState = .opened
      · simp [broadcastLoop, h1, h2, ha, ih hrest]
      · simp [broadcastLoop, h1, h2, ih hrest]

theorem broadcastLoop_append_throw (message : Message) (excludeWs : Option WS)
    (sendThrows : WS → Bool) (pre post : List ChannelSubscription) (f : ChannelSubscription)
    (hpre : ∀ sub ∈ pre, sendThrows sub.ws = false)
    (hf1 : ¬ some f.ws = excludeWs) (hf2 : f.ws.readyState = .opened)
    (hf3 : sendThrows f.ws = true) :
    broadcastLoop message excludeWs sendThrows (pre ++ f :: post) =
      (pre.filter (fun sub =>
          decide (¬ some sub.ws = excludeWs ∧ sub.ws.readyState = .opened))).map
        (fun sub => (sub.ws, message)) := by
  induction pre with
  | nil => simp [broadcastLoop, hf1, hf2, hf3]
  | cons a rest ih =>
    have ha := hpre a (by simp)
    have hrest : ∀ sub ∈ rest, sendThrows sub.ws = false :=
      fun sub hs => hpre sub (by simp [hs])
    by_cases h1 : some a.ws = excludeWs
    · simp [broadcastLoop, h1, ih hrest]
    · by_cases h2 : a.ws.readyState = .opened
      · simp [broadcastLoop, h1, h2, ha, ih hrest]
      · simp [broadcastLoop, h1, h2, ih hrest]

/-- C8: a broadcast on an existing channel under which no send throws
delivers the one serialized frame exactly once to each subscriber in the
channel set that is open and not excluded, and to nobody else. -/
theorem broadcast_fanout (s : ManagerState) (channelName : String) (event : WSEventType)
    (data : WSData) (excludeWs : Option WS) (sendThrows : WS → Bool)
    (channel : List ChannelSubscription)
    (hch : aget s.channels channelName = some channel)
    (hok : ∀ sub ∈ channel, sendThrows sub.ws = false) :
    broadcastSends s channelName event data excludeWs sendThrows =
      (channel.filter (fun sub =>
          decide (¬ some sub.ws = excludeWs ∧ sub.ws.readyState = .opened))).map
        (fun sub => (sub.ws, serializeMessage event data)) := by
  unfold broadcastSends
  rw [hch]
  exact broadcastLoop_all_ok _ _ _ _ hok

/-- C8 witness: channel x with three open subscribers and one closed one;
without exclusion the three open subscribers each receive the single
frame; excluding one of them reduces delivery to the other two. -/
theorem broadcast_fanout_witness :
    aget fanoutFixture.channels "x" =
      some [⟨fws1, "u1", "i1"⟩, ⟨fws2, "u2", "i2"⟩, ⟨fws3, "u3", "i3"⟩,
            ⟨fwsClosed, "u9", "i9"⟩]
    ∧ (∀ sub ∈ [(⟨fws1, "u1", "i1"⟩ : ChannelSubscription), ⟨fws2, "u2", "i2"⟩,
          ⟨fws3, "u3", "i3"⟩, ⟨fwsClosed, "u9", "i9"⟩], noThrow sub.ws = false)
    ∧ broadcastSends fanoutFixture "x" .NEW_MESSAGE (.message "p") none noThrow =
        [(fws1, serializeMessage .NEW_MESSAGE (.message "p")),
         (fws2, serializeMessage .NEW_MESSAGE (.message "p")),
         (fws3, serializeMessage .NEW_MESSAGE (.message "p"))]
    ∧ broadcastSends fanoutFixture "x" .NEW_MESSAGE (.message "p") (some fws1) noThrow =
        [(fws2, serializeMessage .NEW_MESSAGE (.message "p")),
         (fws3, serializeMessage .NEW_MESSAGE (.message "p"))] :=
  ⟨by decide, by decide,
   (broadcast_fanout fanoutFixture "x" .NEW_MESSAGE (.message "p") none noThrow
     [⟨fws1, "u1", "i1"⟩, ⟨fws2, "u2", "i2"⟩, ⟨fws3, "u3", "i3"⟩, ⟨fwsClosed, "u9", "i9"⟩]
     (by decide) (by decide)).trans (by decide),
   (broadcast_fanout fanoutFixture "x" .NEW_MESSAGE (.message "p") (some fws1) noThrow
     [⟨fws1, "u1", "i1"⟩, ⟨fws2, "u2", "i2"⟩, ⟨fws3, "u3", "i3"⟩, ⟨fwsClosed, "u9", "i9"⟩]
     (by decide) (by decide)).trans (by decide)⟩

/-- C1 counterexample: channel x holds two subscribers, both open; the
send to the first throws, and the remaining open subscriber receives
nothing, because the exception aborts the whole forEach loop before it
is caught by the try/catch around the loop. -/
theorem broadcast_failure_aborts_rest :
    (chanSubs twoSubscriberFixture "x").length = 2
    ∧ (∀ c ∈ chanSubs twoSubscriberFixture "x", c.ws.readyState = .opened)
    ∧ throwsOnWs1 fws1 = true ∧ throwsOnWs1 fws2 = false
    ∧ broadcastSends twoSubscriberFixture "x" .NEW_MESSAGE (.message "m") none throwsOnWs1 =
        [] := by
  decide

/-- C1, amended: when the send to one open, non-excluded subscriber throws
during a broadcast and no earlier send throws, the open non-excluded
subscribers iterated before it have received the frame, while the failing
subscriber and every subscriber after it receive nothing; the exception
stays inside broadcast. -/
theorem broadcast_failure_prefix_delivery (s : ManagerState) (channelName : String)
    (event : WSEventType) (data : WSData) (excludeWs : Option WS) (sendThrows : WS → Bool)
    (pre post : List ChannelSubscription) (f : ChannelSubscription)
    (hch : aget s.channels channelName = some (pre ++ f :: post))
    (hpre : ∀ sub ∈ pre, sendThrows sub.ws = false)
    (hf1 : ¬ some f.ws = excludeWs) (hf2 : f.ws.readyState = .opened)
    (hf3 : sendThrows f.ws = true) :
    broadcastSends s channelName event data excludeWs sendThrows =
      (pre.filter (fun sub =>
          decide (¬ some sub.ws = excludeWs ∧ sub.ws.readyState = .opened))).map
        (fun sub => (sub.ws, serializeMessage event data)) := by
  unfold broadcastSends
  rw [hch]
  exact broadcastLoop_append_throw _ _ _ _ _ _ hpre hf1 hf2 hf3

/-- C1 amended witness: with the throwing subscriber second, the first
open subscriber has already received the frame. -/
theorem broadcast_failure_prefix_delivery_witness :
    aget twoSubscriberFixture.channels "x" =
      some ([⟨fws1, "u1", "i1"⟩] ++ (⟨fws2, "u2", "i2"⟩ : ChannelSubscription) :: [])
    ∧ (∀ sub ∈ [(⟨fws1, "u1", "i1"⟩ : ChannelSubscription)], throwsOnWs2 sub.ws = false)
    ∧ throwsOnWs2 fws2 = true
    ∧ broadcastSends twoSubscriberFixture "x" .NEW_MESSAGE (.message "m") none throwsOnWs2 =
        [(fws1, serializeMessage .NEW_MESSAGE (.message "m"))] :=
  ⟨by decide, by decide, by decide,
   (broadcast_failure_prefix_delivery twoSubscriberFixture "x" .NEW_MESSAGE (.message "m")
     none throwsOnWs2 [⟨fws1, "u1", "i1"⟩] [] ⟨fws2, "u2", "i2"⟩
     (by decide) (by decide) (by decide) (by decide) (by decide)).trans (by decide)⟩

/-- C4: an accepted first subscribe of a pair not yet present emits
exactly one presence-online MEMBER_STATUS_UPDATE broadcast and leaves
exactly one subscription for the pair; the immediate duplicate call
returns the state unchanged and emits nothing. -/
theorem subscribe_idempotent (s : ManagerState) (channelName : String)
    (subscription : ChannelSubscription)
    (hauth : ¬ ∃ t, subscription.ws.user = some t ∧ ¬ t.userId = subscription.userId)
    (hnew : ¬ ∃ c ∈ chanSubs s channelName,
        c.ws = subscription.ws ∧ c.userId = subscription.userId) :
    (subscribe s channelName subscription).2 =
      [⟨channelName, .MEMBER_STATUS_UPDATE, .memberStatus subscription.userId true
        (sadd (online s channelName) subscription.userId)⟩]
    ∧ (chanSubs (subscribe s channelName subscription).1 channelName).filter
        (fun c => decide (c.ws = subscription.ws ∧ c.userId = subscription.userId)) =
        [subscription]
    ∧ subscribe (subscribe s channelName subscription).1 channelName subscription =
        ((subscribe s channelName subscription).1, []) := by
  have hm := subscribe_main s channelName subscription hauth hnew
  have h1 : (subscribe s channelName subscription).1.channels =
      aset s.channels channelName (chanSubs s channelName ++ [subscription]) := by rw [hm]
  refine ⟨by rw [hm], ?_, ?_⟩
  · simp only [chanSubs, h1, aget_aset_self, Option.getD_some, List.filter_append]
    have hl : ((aget s.channels channelName).getD []).filter
        (fun c => decide (c.ws = subscription.ws ∧ c.userId = subscription.userId)) = [] := by
      rw [List.filter_eq_nil_iff]
      intro a ha
      simp only [decide_eq_true_eq, not_and]
      intro hw hu
      exact hnew ⟨a, ha, hw, hu⟩
    rw [hl]
    simp
  · apply subscribe_dup _ _ _ hauth
    simp only [chanSubs, h1, aget_aset_self, Option.getD_some]
    exact ⟨subscription, by simp, rfl, rfl⟩

/-- C4 witness: concrete double subscribe of the same pair on channel a
from the empty registry. -/
theorem subscribe_idempotent_witness :
    (¬ ∃ t, (⟨fws1, "u", "i"⟩ : ChannelSubscription).ws.user = some t ∧ ¬ t.userId = "u")
    ∧ (¬ ∃ c ∈ chanSubs initState "a", c.ws = fws1 ∧ c.userId = "u")
    ∧ (subscribe initState "a" ⟨fws1, "u", "i"⟩).2 =
        [⟨"a", .MEMBER_STATUS_UPDATE, .memberStatus "u" true (sadd (online initState "a") "u")⟩]
    ∧ subscribe (subscribe initState "a" ⟨fws1, "u", "i"⟩).1 "a" ⟨fws1, "u", "i"⟩ =
        ((subscribe initState "a" ⟨fws1, "u", "i"⟩).1, []) := by
  refine ⟨by decide, by decide, ?_, ?_⟩
  · exact (subscribe_idempotent initState "a" ⟨fws1, "u", "i"⟩ (by decide) (by decide)).1
  · exact (subscribe_idempotent initState "a" ⟨fws1, "u", "i"⟩ (by decide) (by decide)).2.2

/-- C5: teardown of a connection subscribed to channels a and b and typing
in a emits the presence-offline updates for a and b and the stop-typing
broadcast for a, leaves no index entry referencing the connection, and a
second teardown as well as a teardown of a connection with no
subscriptions are silent no-ops. -/
theorem teardown_completeness :
    (handleWebSocketClosure teardownFixture fws1).2 =
      [⟨"a", .MEMBER_STATUS_UPDATE, .memberStatus "u" false []⟩,
       ⟨"a", .MEMBER_STOP_TYPING, .stopTyping "u" "uname" (some [])⟩,
       ⟨"b", .MEMBER_STATUS_UPDATE, .memberStatus "u" false []⟩]
    ∧ (∀ p ∈ (handleWebSocketClosure teardownFixture fws1).1.channels,
        ∀ c ∈ p.2, ¬ c.ws = fws1)
    ∧ aget (handleWebSocketClosure teardownFixture fws1).1.wsToChannels fws1 = none
    ∧ aget (handleWebSocketClosure teardownFixture fws1).1.wsToUser fws1 = none
    ∧ handleWebSocketClosure (handleWebSocketClosure teardownFixture fws1).1 fws1 =
        ((handleWebSocketClosure teardownFixture fws1).1, [])
    ∧ handleWebSocketClosure initState fws1 = (initState, []) := by
  decide

/-- C6: a subscribe whose connection carries a verified identity differing
from the claimed userId changes no registry state and emits no
broadcast. -/
theorem subscribe_identity_mismatch_noop (s : ManagerState) (channelName : String)
    (subscription : ChannelSubscription) (t : WebSocketAuthToken)
    (huser : subscription.ws.user = some t) (hne : ¬ t.userId = subscription.userId) :
    subscribe s channelName subscription = (s, []) :=
  subscribe_auth_reject s channelName subscription t huser hne

/-- C6 witness: a connection verified as u1 claiming userId u2 is a
silent no-op on the empty registry. -/
theorem subscribe_identity_mismatch_noop_witness :
    (⟨⟨4, .opened, some ⟨"u1", none, none, 0⟩⟩, "u2", "i"⟩ : ChannelSubscription).ws.user =
      some ⟨"u1", none, none, 0⟩
    ∧ ¬ ("u1" : String) = "u2"
    ∧ subscribe initState "a" ⟨⟨4, .opened, some ⟨"u1", none, none, 0⟩⟩, "u2", "i"⟩ =
        (initState, []) :=
  ⟨rfl, by decide,
   subscribe_identity_mismatch_noop initState "a" _ ⟨"u1", none, none, 0⟩ rfl (by decide)⟩

/-- C7: a typing entry inserted at time 0 and never refreshed survives the
sweeps at 1000, 2000 and 3000 ms unchanged, and the first sweep past the
3000 ms idle threshold, at 4000 ms, removes it (deleting the emptied
channel map) while emitting exactly one MEMBER_STOP_TYPING broadcast. -/
theorem typing_entry_expiry :
    typingSweep typingFixture 1000 = (typingFixture, [])
    ∧ typingSweep typingFixture 2000 = (typingFixture, [])
    ∧ typingSweep typingFixture 3000 = (typingFixture, [])
    ∧ aget (typingSweep typingFixture 4000).1.typingUsers "general" = none
    ∧ (typingSweep typingFixture 4000).2 =
        [⟨"general", .MEMBER_STOP_TYPING, .stopTyping "u" "name" none⟩] := by
  decide

/-- C2 counterexample: after subscribing connection fws1 to channel a
under two userIds and then unsubscribing it once, channel a still holds a
subscription of fws1 while the connection index no longer lists a: the
two mirrored structures diverge. -/
theorem bidi_divergence_example :
    (∃ sub ∈ chanSubs (runOps bidiCexOps) "a", sub.ws = fws1)
    ∧ ¬ "a" ∈ wsChans (runOps bidiCexOps) fws1
    ∧ ¬ Bidi (runOps bidiCexOps) := by
  refine ⟨by decide, by decide, ?_⟩
  intro hb
  exact absurd ((hb "a" fws1).mp (by decide)) (by decide)

/-- C3 counterexample: a subscribe followed by a standalone unsubscribe
leaves the userId in the channel presence set although the channel no
longer holds any subscription for it. -/
theorem presence_divergence_example :
    "u" ∈ online (runOps presCexOps) "a"
    ∧ chanSubs (runOps presCexOps) "a" = []
    ∧ ¬ Pres (runOps presCexOps) := by
  refine ⟨by decide, by decide, ?_⟩
  intro hp
  rcases (hp "a" "u").mp (by decide) with ⟨sub, hs, _⟩
  rw [show chanSubs (runOps presCexOps) "a" = [] from by decide] at hs
  simp at hs

end Channels

namespace Channels

theorem aget_mem {K V : Type} [DecidableEq K] (l : List (K × V)) (k : K) (v : V)
    (h : aget l k = some v) : (k, v) ∈ l := by
  induction l with
  | nil => simp [aget] at h
  | cons p rest ih =>
    rw [aget] at h
    by_cases hp : p.1 = k
    · rw [if_pos hp] at h
      injection h with h2
      have hkv : (k, v) = p := by rw [← hp, ← h2]
      rw [hkv]
      exact List.mem_cons_self _ _
    · rw [if_neg hp] at h
      exact List.mem_cons_of_mem _ (ih h)

theorem mem_removeClosedStep (channelName : String) (w : List (WS × List String))
    (a : ChannelSubscription) (ws : WS) (ch : String) :
    ch ∈ (aget (removeClosedStep channelName w a) ws).getD [] ↔
      ch ∈ (aget w ws).getD [] ∧ ¬ (ch = channelName ∧ a.ws = ws) := by
  unfold removeClosedStep
  cases haget : aget w a.ws with
  | none =>
    by_cases hws : a.ws = ws
    · rw [← hws, haget]
      simp
    · simp [hws]
  | some chs =>
    have hnil : (sdel chs channelName).length = 0 ↔ sdel chs channelName = [] :=
      List.length_eq_zero
    by_cases hlen : (sdel chs channelName).length = 0
    · simp only [hlen, if_true]
      have hall : ∀ x ∈ chs, x = channelName := by
        intro x hx
        by_contra hne
        have hmem : x ∈ sdel chs channelName := (mem_sdel chs x channelName).mpr ⟨hx, hne⟩
        rw [hnil.mp hlen] at hmem
        simp at hmem
      by_cases hws : a.ws = ws
      · rw [← hws, aget_adel_self, haget]
        simp only [Option.getD_some, Option.getD_none, List.not_mem_nil, false_iff]
        rintro ⟨hmem, hno⟩
        exact hno ⟨hall ch hmem, trivial⟩
      · rw [aget_adel_ne _ _ _ (fun g => hws g.symm)]
        simp [hws]
    · simp only [hlen, if_false]
      by_cases hws : a.ws = ws
      · rw [← hws, aget_aset_self, haget]
        simp [mem_sdel]
      · rw [aget_aset_ne _ _ _ _ (fun g => hws g.symm)]
        simp [hws]

theorem mem_removeClosedFromIndex (channelName : String)
    (removed : List ChannelSubscription) (w : List (WS × List String)) (ws : WS)
    (ch : String) :
    ch ∈ (aget (removeClosedFromIndex channelName w removed) ws).getD [] ↔
      ch ∈ (aget w ws).getD [] ∧ ¬ (ch = channelName ∧ ∃ sub ∈ removed, sub.ws = ws) := by
  induction removed generalizing w with
  | nil => simp [removeClosedFromIndex]
  | cons a rest ih =>
    have hstep : removeClosedFromIndex channelName w (a :: rest) =
        removeClosedFromIndex channelName (removeClosedStep channelName w a) rest := rfl
    rw [hstep, ih, mem_removeClosedStep]
    constructor
    · rintro ⟨⟨h1, h2⟩, h3⟩
      refine ⟨h1, ?_⟩
      rintro ⟨hch, sub, hsub, hws⟩
      rcases List.mem_cons.mp hsub with rfl | hsub2
      · exact h2 ⟨hch, hws⟩
      · exact h3 ⟨hch, sub, hsub2, hws⟩
    · rintro ⟨h1, h2⟩
      refine ⟨⟨h1, ?_⟩, ?_⟩
      · rintro ⟨hch, hws⟩
        exact h2 ⟨hch, a, List.mem_cons_self _ _, hws⟩
      · rintro ⟨hch, sub, hsub, hws⟩
        exact h2 ⟨hch, sub, List.mem_cons_of_mem _ hsub, hws⟩

theorem cleanup_fold_channels (entries : List (String × List ChannelSubscription))
    (acc : List (String × List ChannelSubscription) × List (WS × List String))
    (hacc : ∀ p ∈ acc.1, ∀ sub ∈ p.2, sub.ws.readyState = .opened) :
    ∀ p ∈ (entries.foldl cleanupStep acc).1, ∀ sub ∈ p.2, sub.ws.readyState = .opened := by
  induction entries generalizing acc with
  | nil => exact hacc
  | cons e rest ih =>
    rw [List.foldl_cons]
    apply ih
    intro p hp sub hsub
    have hone : (cleanupStep acc e).1 =
        if (e.2.filter (fun sub => decide (sub.ws.readyState = .opened))).length = 0
        then acc.1
        else acc.1 ++ [(e.1, e.2.filter (fun sub => decide (sub.ws.readyState = .opened)))] :=
      rfl
    rw [hone] at hp
    by_cases hk : (e.2.filter (fun sub => decide (sub.ws.readyState = .opened))).length = 0
    · rw [if_pos hk] at hp
      exact hacc p hp sub hsub
    · rw [if_neg hk] at hp
      rcases List.mem_append.mp hp with hp1 | hp2
      · exact hacc p hp1 sub hsub
      · have hpe : p = (e.1, e.2.filter (fun sub => decide (sub.ws.readyState = .opened))) := by
          simpa using hp2
        rw [hpe] at hsub
        have := List.mem_filter.mp hsub
        simpa using this.2

theorem cleanup_fold_index (entries : List (String × List ChannelSubscription))
    (acc : List (String × List ChannelSubscription) × List (WS × List String))
    (ws : WS) (ch : String) :
    ch ∈ (aget (entries.foldl cleanupStep acc).2 ws).getD [] ↔
      ch ∈ (aget acc.2 ws).getD [] ∧
        ¬ ∃ p ∈ entries, p.1 = ch ∧ ∃ sub ∈ p.2,
          ¬ sub.ws.readyState = .opened ∧ sub.ws = ws := by
  induction entries generalizing acc with
  | nil => simp
  | cons e rest ih =>
    rw [List.foldl_cons, ih]
    have h2 : (cleanupStep acc e).2 = removeClosedFromIndex e.1 acc.2
        (e.2.filter (fun sub => decide (¬ sub.ws.readyState = .opened))) := rfl
    rw [h2, mem_removeClosedFromIndex]
    constructor
    · rintro ⟨⟨h1, hne⟩, h3⟩
      refine ⟨h1, ?_⟩
      rintro ⟨p, hp, hpch, sub, hsub, hcl, hws⟩
      rcases List.mem_cons.mp hp with rfl | hp2
      · exact hne ⟨hpch.symm, sub, List.mem_filter.mpr ⟨hsub, by simpa using hcl⟩, hws⟩
      · exact h3 ⟨p, hp2, hpch, sub, hsub, hcl, hws⟩
    · rintro ⟨h1, h2⟩
      refine ⟨⟨h1, ?_⟩, ?_⟩
      · rintro ⟨hch, sub, hsub, hws⟩
        have hm := List.mem_filter.mp hsub
        exact h2 ⟨e, List.mem_cons_self _ _, hch.symm, sub, hm.1, by simpa using hm.2, hws⟩
      · rintro ⟨p, hp, hpch, sub, hsub, hcl, hws⟩
        exact h2 ⟨p, List.mem_cons_of_mem _ hp, hpch, sub, hsub, hcl, hws⟩

/-- C9: cleanupInactiveConnections never touches the wsToUser map (a fully
evicted connection keeps a residual userId mapping), removes every
subscription whose connection is not open (so every remaining
subscription is open), and a channel stays in a connection index entry
exactly when it was there before and the cleanup removed no closed
subscription of that connection from that channel (index entries that
empty disappear, since membership in an absent entry is empty). -/
theorem cleanup_frame_effect (s : ManagerState) :
    (cleanupInactiveConnections s).wsToUser = s.wsToUser
    ∧ (∀ ch, ∀ sub ∈ chanSubs (cleanupInactiveConnections s) ch,
        sub.ws.readyState = .opened)
    ∧ (∀ ws ch, ch ∈ wsChans (cleanupInactiveConnections s) ws ↔
        ch ∈ wsChans s ws ∧
          ¬ ∃ p ∈ s.channels, p.1 = ch ∧ ∃ sub ∈ p.2,
            ¬ sub.ws.readyState = .opened ∧ sub.ws = ws) := by
  refine ⟨rfl, ?_, ?_⟩
  · intro ch sub hsub
    rw [chanSubs] at hsub
    have hceq : (cleanupInactiveConnections s).channels =
        (s.channels.foldl cleanupStep ([], s.wsToChannels)).1 := rfl
    rw [hceq] at hsub
    cases hag : aget (s.channels.foldl cleanupStep ([], s.wsToChannels)).1 ch with
    | none => rw [hag] at hsub; simp at hsub
    | some v =>
      rw [hag] at hsub
      rw [Option.getD_some] at hsub
      exact cleanup_fold_channels s.channels ([], s.wsToChannels)
        (by intro p hp; simp at hp) (ch, v) (aget_mem _ _ _ hag) sub hsub
  · intro ws ch
    have hweq : (cleanupInactiveConnections s).wsToChannels =
        (s.channels.foldl cleanupStep ([], s.wsToChannels)).2 := rfl
    rw [wsChans, wsChans, hweq, cleanup_fold_index]

/-- C9 witness: a channel whose only subscriber has closed; cleanup
removes the subscription and the index entry but the wsToUser mapping of
the closed connection survives. -/
theorem cleanup_frame_effect_witness :
    aget (cleanupInactiveConnections cleanupFixture).wsToUser fwsClosed = some "u"
    ∧ ¬ "x" ∈ wsChans (cleanupInactiveConnections cleanupFixture) fwsClosed
    ∧ chanSubs (cleanupInactiveConnections cleanupFixture) "x" = [] :=
  ⟨by rw [(cleanup_frame_effect cleanupFixture).1]; decide,
   fun hmem =>
     (((cleanup_frame_effect cleanupFixture).2.2 fwsClosed "x").mp hmem).2 (by decide),
   by decide⟩

theorem sweep_events_shape (s : ManagerState) (now : Nat) :
    ∀ ev ∈ (typingSweep s now).2, ev.event = .MEMBER_STOP_TYPING ∧
      ∃ u n, ev.data = .stopTyping u n none := by
  intro ev hev
  simp only [typingSweep, List.mem_flatMap, List.mem_map] at hev
  rcases hev with ⟨r, hr, p, hp, rfl⟩
  exact ⟨rfl, p.1, p.2.username, rfl⟩

theorem handleTyping_stop_event (s : ManagerState) (channelName userId username : String)
    (now : Nat) :
    ∃ rem, (handleTyping s channelName userId username false now).2 =
      [⟨channelName, .MEMBER_STOP_TYPING, .stopTyping userId username (some rem)⟩] :=
  ⟨(adel ((aget (if (aget s.typingUsers channelName).isSome then s.typingUsers
      else aset s.typingUsers channelName []) channelName).getD []) userId).map
        (fun (p : String × TypingUser) => p.2), rfl⟩

theorem teardownChannelStep_events (ws : WS) (userId : String)
    (acc : ManagerState × List BroadcastCall) (ch : String) :
    ∀ ev ∈ (teardownChannelStep ws userId acc ch).2,
      ev ∈ acc.2
      ∨ (∃ ou, ev = ⟨ch, .MEMBER_STATUS_UPDATE, .memberStatus userId false ou⟩)
      ∨ (∃ n rem, ev = ⟨ch, .MEMBER_STOP_TYPING, .stopTyping userId n (some rem)⟩) := by
  intro ev hev
  simp only [teardownChannelStep, updateOnlineStatus] at hev
  cases htm : aget acc.1.typingUsers ch with
  | none =>
    simp only [htm] at hev
    simp only [List.append_nil, List.mem_append, List.mem_singleton] at hev
    rcases hev with h | rfl
    · exact Or.inl h
    · exact Or.inr (Or.inl ⟨_, rfl⟩)
  | some tm =>
    simp only [htm] at hev
    cases htu : aget tm userId with
    | none =>
      simp only [htu] at hev
      simp only [List.append_nil, List.mem_append, List.mem_singleton] at hev
      rcases hev with h | rfl
      · exact Or.inl h
      · exact Or.inr (Or.inl ⟨_, rfl⟩)
    | some user =>
      simp only [htu] at hev
      simp only [List.mem_append, List.mem_singleton] at hev
      rcases hev with (h | rfl) | rfl
      · exact Or.inl h
      · exact Or.inr (Or.inl ⟨_, rfl⟩)
      · exact Or.inr (Or.inr ⟨user.username, _, rfl⟩)

theorem teardown_fold_events (ws : WS) (userId : String) (chs : List String)
    (acc : ManagerState × List BroadcastCall)
    (hacc : ∀ ev ∈ acc.2, ev.event = .MEMBER_STOP_TYPING →
        ∃ u n rem, ev.data = .stopTyping u n (some rem)) :
    ∀ ev ∈ (chs.foldl (teardownChannelStep ws userId) acc).2,
      ev.event = .MEMBER_STOP_TYPING → ∃ u n rem, ev.data = .stopTyping u n (some rem) := by
  induction chs generalizing acc with
  | nil => exact hacc
  | cons ch rest ih =>
    rw [List.foldl_cons]
    apply ih
    intro ev hev hevt
    rcases teardownChannelStep_events ws userId acc ch ev hev with h | ⟨ou, rfl⟩ | ⟨n, rem, rfl⟩
    · exact hacc ev h hevt
    · simp at hevt
    · exact ⟨userId, n, rem, rfl⟩

theorem closure_stop_events (s : ManagerState) (ws : WS) :
    ∀ ev ∈ (handleWebSocketClosure s ws).2, ev.event = .MEMBER_STOP_TYPING →
      ∃ u n rem, ev.data = .stopTyping u n (some rem) := by
  intro ev hev hevt
  unfold handleWebSocketClosure at hev
  cases h1 : aget s.wsToChannels ws with
  | none => simp only [h1] at hev; simp at hev
  | some chs =>
    simp only [h1] at hev
    cases h2 : aget s.wsToUser ws with
    | none => simp only [h2] at hev; simp at hev
    | some userId =>
      simp only [h2] at hev
      by_cases hu : userId = ""
      · rw [if_pos hu] at hev
        simp at hev
      · rw [if_neg hu] at hev
        exact teardown_fold_events ws userId chs (s, [])
          (by intro ev2 h; simp at h) ev hev hevt

/-- C10: a MEMBER_STOP_TYPING broadcast emitted by the periodic typing
sweep carries only the userId and username (no remainingTypingUsers),
while the same event emitted by an explicit stop-typing signal or during
connection teardown always carries a remainingTypingUsers snapshot. -/
theorem stop_typing_payload_shapes :
    (∀ (s : ManagerState) (now : Nat), ∀ ev ∈ (typingSweep s now).2,
        ev.event = .MEMBER_STOP_TYPING ∧ ∃ u n, ev.data = .stopTyping u n none)
    ∧ (∀ (s : ManagerState) (channelName userId username : String) (now : Nat),
        ∃ rem, (handleTyping s channelName userId username false now).2 =
          [⟨channelName, .MEMBER_STOP_TYPING, .stopTyping userId username (some rem)⟩])
    ∧ (∀ (s : ManagerState) (ws : WS), ∀ ev ∈ (handleWebSocketClosure s ws).2,
        ev.event = .MEMBER_STOP_TYPING → ∃ u n rem, ev.data = .stopTyping u n (some rem)) :=
  ⟨sweep_events_shape, handleTyping_stop_event, closure_stop_events⟩

/-- C10 witness: the sweep eviction event of the typing fixture has no
remaining snapshot; the explicit stop signal and the teardown stop event
carry one. -/
theorem stop_typing_payload_shapes_witness :
    ((⟨"general", .MEMBER_STOP_TYPING, .stopTyping "u" "name" none⟩ : BroadcastCall) ∈
        (typingSweep typingFixture 4000).2
      ∧ ∃ u n, (⟨"general", .MEMBER_STOP_TYPING,
          .stopTyping "u" "name" none⟩ : BroadcastCall).data = .stopTyping u n none)
    ∧ (∃ rem, (handleTyping typingFixture "general" "u" "name" false 500).2 =
        [⟨"general", .MEMBER_STOP_TYPING, .stopTyping "u" "name" (some rem)⟩])
    ∧ ((⟨"a", .MEMBER_STOP_TYPING, .stopTyping "u" "uname" (some [])⟩ : BroadcastCall) ∈
          (handleWebSocketClosure teardownFixture fws1).2
      ∧ ∃ u n rem, (⟨"a", .MEMBER_STOP_TYPING,
          .stopTyping "u" "uname" (some [])⟩ : BroadcastCall).data =
            .stopTyping u n (some rem)) :=
  ⟨⟨by decide, (stop_typing_payload_shapes.1 typingFixture 4000 _ (by decide)).2⟩,
   stop_typing_payload_shapes.2.1 typingFixture "general" "u" "name" 500,
   ⟨by decide, stop_typing_payload_shapes.2.2 teardownFixture fws1 _ (by decide) rfl⟩⟩

end Channels

namespace Channels

theorem removeFirstWs_sublist (l : List ChannelSubscription) (ws : WS) :
    (removeFirstWs l ws).Sublist l := by
  induction l with
  | nil => simp [removeFirstWs]
  | cons a rest ih =>
    rw [removeFirstWs]
    by_cases h : a.ws = ws
    · rw [if_pos h]
      exact List.sublist_cons_self a rest
    · rw [if_neg h]
      exact ih.cons₂ a

theorem mem_of_mem_removeFirstWs {l : List ChannelSubscription} {ws : WS}
    {sub : ChannelSubscription} (h : sub ∈ removeFirstWs l ws) : sub ∈ l :=
  (removeFirstWs_sublist l ws).subset h

theorem mem_removeFirstWs_of_ne {l : List ChannelSubscription} {ws : WS}
    {sub : ChannelSubscription} (hmem : sub ∈ l) (hne : ¬ sub.ws = ws) :
    sub ∈ removeFirstWs l ws := by
  induction l with
  | nil => simp at hmem
  | cons a rest ih =>
    rw [removeFirstWs]
    rcases List.mem_cons.mp hmem with rfl | h2
    · rw [if_neg hne]
      exact List.mem_cons_self _ _
    · by_cases h : a.ws = ws
      · rw [if_pos h]
        exact h2
      · rw [if_neg h]
        exact List.mem_cons_of_mem _ (ih h2)

theorem not_mem_ws_removeFirstWs (l : List ChannelSubscription) (ws : WS) :
    (l.filter (fun c => decide (c.ws = ws))).length ≤ 1 →
    ∀ sub ∈ removeFirstWs l ws, ¬ sub.ws = ws := by
  induction l with
  | nil =>
    intro _ sub h
    simp [removeFirstWs] at h
  | cons a rest ih =>
    intro huniq sub hsub
    rw [removeFirstWs] at hsub
    by_cases h : a.ws = ws
    · rw [if_pos h] at hsub
      intro hws
      have hlen : (List.filter (fun c => decide (c.ws = ws)) (a :: rest)).length =
          (rest.filter (fun c => decide (c.ws = ws))).length + 1 := by
        simp [List.filter_cons, h]
      have hzero : (rest.filter (fun c => decide (c.ws = ws))).length = 0 := by omega
      have hm : sub ∈ rest.filter (fun c => decide (c.ws = ws)) :=
        List.mem_filter.mpr ⟨hsub, by simp [hws]⟩
      rw [List.length_eq_zero.mp hzero] at hm
      simp at hm
    · rw [if_neg h] at hsub
      rcases List.mem_cons.mp hsub with rfl | h2
      · exact h
      · refine ih ?_ sub h2
        have heq : List.filter (fun c => decide (c.ws = ws)) (a :: rest) =
            rest.filter (fun c => decide (c.ws = ws)) := by
          simp [List.filter_cons, h]
        rw [heq] at huniq
        exact huniq

theorem unsubscribe_noChannel (s : ManagerState) (channelName : String) (ws : WS)
    (hch : aget s.channels channelName = none) : unsubscribe s channelName ws = s := by
  unfold unsubscribe
  rw [hch]

theorem unsubscribe_onlineUsers (s : ManagerState) (channelName : String) (ws : WS) :
    (unsubscribe s channelName ws).onlineUsers = s.onlineUsers := by
  unfold unsubscribe
  cases haget : aget s.channels channelName with
  | none => rfl
  | some channel =>
    simp only [haget]
    cases hw2 : aget s.wsToChannels ws with
    | none =>
      simp only [hw2]
      by_cases hlen : (removeFirstWs channel ws).length = 0
      · simp [hlen]
      · simp [hlen]
    | some chs =>
      simp only [hw2]
      by_cases hsd : (sdel chs channelName).length = 0
      · by_cases hlen : (removeFirstWs channel ws).length = 0
        · simp [hsd, hlen]
        · simp [hsd, hlen]
      · by_cases hlen : (removeFirstWs channel ws).length = 0
        · simp [hsd, hlen]
        · simp [hsd, hlen]

theorem unsubscribe_typingUsers (s : ManagerState) (channelName : String) (ws : WS) :
    (unsubscribe s channelName ws).typingUsers = s.typingUsers := by
  unfold unsubscribe
  cases haget : aget s.channels channelName with
  | none => rfl
  | some channel =>
    simp only [haget]
    cases hw2 : aget s.wsToChannels ws with
    | none =>
      simp only [hw2]
      by_cases hlen : (removeFirstWs channel ws).length = 0
      · simp [hlen]
      · simp [hlen]
    | some chs =>
      simp only [hw2]
      by_cases hsd : (sdel chs channelName).length = 0
      · by_cases hlen : (removeFirstWs channel ws).length = 0
        · simp [hsd, hlen]
        · simp [hsd, hlen]
      · by_cases hlen : (removeFirstWs channel ws).length = 0
        · simp [hsd, hlen]
        · simp [hsd, hlen]

theorem chanSubs_unsubscribe_self (s : ManagerState) (channelName : String) (ws : WS) :
    chanSubs (unsubscribe s channelName ws) channelName =
      removeFirstWs (chanSubs s channelName) ws := by
  unfold unsubscribe
  cases haget : aget s.channels channelName with
  | none => simp [chanSubs, haget, removeFirstWs]
  | some channel =>
    simp only [haget]
    cases hw2 : aget s.wsToChannels ws with
    | none =>
      simp only [hw2]
      by_cases hlen : (removeFirstWs channel ws).length = 0
      · simp [chanSubs, hlen, haget, aget_adel_self, List.length_eq_zero.mp hlen]
      · simp [chanSubs, hlen, haget, aget_aset_self]
    | some chs =>
      simp only [hw2]
      by_cases hsd : (sdel chs channelName).length = 0
      · by_cases hlen : (removeFirstWs channel ws).length = 0
        · simp [chanSubs, hsd, hlen, haget, aget_adel_self, List.length_eq_zero.mp hlen]
        · simp [chanSubs, hsd, hlen, haget, aget_aset_self]
      · by_cases hlen : (removeFirstWs channel ws).length = 0
        · simp [chanSubs, hsd, hlen, haget, aget_adel_self, List.length_eq_zero.mp hlen]
        · simp [chanSubs, hsd, hlen, haget, aget_aset_self]

theorem chanSubs_unsubscribe_ne (s : ManagerState) (channelName : String) (ws : WS)
    (ch2 : String) (hne : ¬ ch2 = channelName) :
    chanSubs (unsubscribe s channelName ws) ch2 = chanSubs s ch2 := by
  unfold unsubscribe
  cases haget : aget s.channels channelName with
  | none => rfl
  | some channel =>
    simp only [haget]
    cases hw2 : aget s.wsToChannels ws with
    | none =>
      simp only [hw2]
      by_cases hlen : (removeFirstWs channel ws).length = 0
      · simp [chanSubs, hlen, aget_adel_ne _ _ _ hne, aget_aset_ne _ _ _ _ hne]
      · simp [chanSubs, hlen, aget_aset_ne _ _ _ _ hne]
    | some chs =>
      simp only [hw2]
      by_cases hsd : (sdel chs channelName).length = 0
      · by_cases hlen : (removeFirstWs channel ws).length = 0
        · simp [chanSubs, hsd, hlen, aget_adel_ne _ _ _ hne, aget_aset_ne _ _ _ _ hne]
        · simp [chanSubs, hsd, hlen, aget_aset_ne _ _ _ _ hne]
      · by_cases hlen : (removeFirstWs channel ws).length = 0
        · simp [chanSubs, hsd, hlen, aget_adel_ne _ _ _ hne, aget_aset_ne _ _ _ _ hne]
        · simp [chanSubs, hsd, hlen, aget_aset_ne _ _ _ _ hne]

theorem wsChans_unsubscribe_self (s : ManagerState) (channelName : String) (ws : WS)
    (hch : (aget s.channels channelName).isSome = true) :
    wsChans (unsubscribe s channelName ws) ws = sdel (wsChans s ws) channelName := by
  unfold unsubscribe
  cases haget : aget s.channels channelName with
  | none => rw [haget] at hch; simp at hch
  | some channel =>
    simp only [haget]
    cases hw2 : aget s.wsToChannels ws with
    | none =>
      simp only [hw2]
      by_cases hlen : (removeFirstWs channel ws).length = 0
      · simp [wsChans, hlen, hw2, sdel]
      · simp [wsChans, hlen, hw2, sdel]
    | some chs =>
      simp only [hw2]
      by_cases hsd : (sdel chs channelName).length = 0
      · by_cases hlen : (removeFirstWs channel ws).length = 0
        · simp [wsChans, hsd, hlen, hw2, aget_adel_self, List.length_eq_zero.mp hsd]
        · simp [wsChans, hsd, hlen, hw2, aget_adel_self, List.length_eq_zero.mp hsd]
      · by_cases hlen : (removeFirstWs channel ws).length = 0
        · simp [wsChans, hsd, hlen, hw2, aget_aset_self]
        · simp [wsChans, hsd, hlen, hw2, aget_aset_self]

theorem aget_wsToChannels_unsubscribe_ne (s : ManagerState) (channelName : String)
    (ws ws2 : WS) (hne : ¬ ws2 = ws) :
    aget (unsubscribe s channelName ws).wsToChannels ws2 = aget s.wsToChannels ws2 := by
  unfold unsubscribe
  cases haget : aget s.channels channelName with
  | none => rfl
  | some channel =>
    simp only [haget]
    cases hw2 : aget s.wsToChannels ws with
    | none =>
      simp only [hw2]
      by_cases hlen : (removeFirstWs channel ws).length = 0
      · simp [hlen]
      · simp [hlen]
    | some chs =>
      simp only [hw2]
      by_cases hsd : (sdel chs channelName).length = 0
      · by_cases hlen : (removeFirstWs channel ws).length = 0
        · simp [hsd, hlen, aget_adel_ne _ _ _ hne]
        · simp [hsd, hlen, aget_adel_ne _ _ _ hne]
      · by_cases hlen : (removeFirstWs channel ws).length = 0
        · simp [hsd, hlen, aget_aset_ne _ _ _ _ hne]
        · simp [hsd, hlen, aget_aset_ne _ _ _ _ hne]

theorem aget_wsToUser_unsubscribe_ne (s : ManagerState) (channelName : String)
    (ws ws2 : WS) (hne : ¬ ws2 = ws) :
    aget (unsubscribe s channelName ws).wsToUser ws2 = aget s.wsToUser ws2 := by
  unfold unsubscribe
  cases haget : aget s.channels channelName with
  | none => rfl
  | some channel =>
    simp only [haget]
    cases hw2 : aget s.wsToChannels ws with
    | none =>
      simp only [hw2]
      by_cases hlen : (removeFirstWs channel ws).length = 0
      · simp [hlen]
      · simp [hlen]
    | some chs =>
      simp only [hw2]
      by_cases hsd : (sdel chs channelName).length = 0
      · by_cases hlen : (removeFirstWs channel ws).length = 0
        · simp [hsd, hlen, aget_adel_ne _ _ _ hne]
        · simp [hsd, hlen, aget_adel_ne _ _ _ hne]
      · by_cases hlen : (removeFirstWs channel ws).length = 0
        · simp [hsd, hlen]
        · simp [hsd, hlen]

theorem aget_wsToUser_unsubscribe_self (s : ManagerState) (channelName : String) (ws : WS)
    (hs : (aget (unsubscribe s channelName ws).wsToChannels ws).isSome = true) :
    aget (unsubscribe s channelName ws).wsToUser ws = aget s.wsToUser ws := by
  unfold unsubscribe at hs ⊢
  cases haget : aget s.channels channelName with
  | none => rfl
  | some channel =>
    simp only [haget] at hs ⊢
    cases hw2 : aget s.wsToChannels ws with
    | none =>
      simp only [hw2] at hs ⊢
      by_cases hlen : (removeFirstWs channel ws).length = 0
      · simp [hlen]
      · simp [hlen]
    | some chs =>
      simp only [hw2] at hs ⊢
      by_cases hsd : (sdel chs channelName).length = 0
      · exfalso
        by_cases hlen : (removeFirstWs channel ws).length = 0
        · simp [hsd, hlen, aget_adel_self] at hs
        · simp [hsd, hlen, aget_adel_self] at hs
      · by_cases hlen : (removeFirstWs channel ws).length = 0
        · simp [hsd, hlen]
        · simp [hsd, hlen]

end Channels

namespace Channels

theorem aget_wsToChannels_unsubscribe_isSome (s : ManagerState) (channelName : String)
    (ws : WS)
    (hs : (aget (unsubscribe s channelName ws).wsToChannels ws).isSome = true) :
    (aget s.wsToChannels ws).isSome = true := by
  unfold unsubscribe at hs
  cases haget : aget s.channels channelName with
  | none => rw [haget] at hs; exact hs
  | some channel =>
    simp only [haget] at hs
    cases hw2 : aget s.wsToChannels ws with
    | none =>
      simp only [hw2] at hs
      by_cases hlen : (removeFirstWs channel ws).length = 0
      · simp [hlen, hw2] at hs
      · simp [hlen, hw2] at hs
    | some chs => rfl

theorem unsubscribe_inv (uidOf : WS → String) (s : ManagerState) (channelName : String)
    (ws : WS) (h : Inv uidOf s) : Inv uidOf (unsubscribe s channelName ws) := by
  by_cases hch : (aget s.channels channelName).isSome = true
  · refine ⟨?_, ?_, ?_, ?_⟩
    · intro ch2 ws2
      by_cases hc : ch2 = channelName
      · by_cases hw : ws2 = ws
        · rw [hc, hw, chanSubs_unsubscribe_self, wsChans_unsubscribe_self _ _ _ hch]
          constructor
          · rintro ⟨sub, hsub, hws⟩
            exact absurd hws (not_mem_ws_removeFirstWs _ _ (h.uniqWs channelName ws) sub hsub)
          · intro hmem
            rw [mem_sdel] at hmem
            exact absurd rfl hmem.2
        · rw [hc, chanSubs_unsubscribe_self]
          have hwc : wsChans (unsubscribe s channelName ws) ws2 = wsChans s ws2 := by
            rw [wsChans, aget_wsToChannels_unsubscribe_ne _ _ _ _ hw, wsChans]
          rw [hwc]
          constructor
          · rintro ⟨sub, hsub, hws⟩
            exact (h.bidi channelName ws2).mp ⟨sub, mem_of_mem_removeFirstWs hsub, hws⟩
          · intro hmem
            rcases (h.bidi channelName ws2).mpr hmem with ⟨sub, hsub, hws⟩
            exact ⟨sub, mem_removeFirstWs_of_ne hsub (fun g => hw (hws.symm.trans g)), hws⟩
      · by_cases hw : ws2 = ws
        · rw [hw, chanSubs_unsubscribe_ne _ _ _ _ hc, wsChans_unsubscribe_self _ _ _ hch,
            mem_sdel]
          constructor
          · intro hx
            exact ⟨(h.bidi ch2 ws).mp hx, hc⟩
          · rintro ⟨h1, _⟩
            exact (h.bidi ch2 ws).mpr h1
        · rw [chanSubs_unsubscribe_ne _ _ _ _ hc]
          have hwc : wsChans (unsubscribe s channelName ws) ws2 = wsChans s ws2 := by
            rw [wsChans, aget_wsToChannels_unsubscribe_ne _ _ _ _ hw, wsChans]
          rw [hwc]
          exact h.bidi ch2 ws2
    · intro ch2 sub hsub
      by_cases hc : ch2 = channelName
      · rw [hc, chanSubs_unsubscribe_self] at hsub
        exact h.subUid channelName sub (mem_of_mem_removeFirstWs hsub)
      · rw [chanSubs_unsubscribe_ne _ _ _ _ hc] at hsub
        exact h.subUid ch2 sub hsub
    · intro ch2 ws2
      by_cases hc : ch2 = channelName
      · rw [hc, chanSubs_unsubscribe_self]
        exact le_trans
          (List.Sublist.length_le ((removeFirstWs_sublist _ _).filter _))
          (h.uniqWs channelName ws2)
      · rw [chanSubs_unsubscribe_ne _ _ _ _ hc]
        exact h.uniqWs ch2 ws2
    · intro ws2 hsome
      by_cases hw : ws2 = ws
      · rw [hw] at hsome ⊢
        rw [aget_wsToUser_unsubscribe_self _ _ _ hsome]
        exact h.wuCoh ws (aget_wsToChannels_unsubscribe_isSome _ _ _ hsome)
      · rw [aget_wsToUser_unsubscribe_ne _ _ _ _ hw]
        apply h.wuCoh
        rw [← aget_wsToChannels_unsubscribe_ne s channelName ws ws2 hw]
        exact hsome
  · have hnone : aget s.channels channelName = none := by
      cases hg : aget s.channels channelName with
      | none => rfl
      | some v => rw [hg] at hch; simp at hch
    rw [unsubscribe_noChannel s channelName ws hnone]
    exact h

theorem subscribe_inv (uidOf : WS → String) (s : ManagerState) (channelName : String)
    (subscription : ChannelSubscription) (h : Inv uidOf s)
    (hop : subscription.userId = uidOf subscription.ws) :
    Inv uidOf (subscribe s channelName subscription).1 := by
  by_cases hauth : ∃ t, subscription.ws.user = some t ∧ ¬ t.userId = subscription.userId
  · rcases hauth with ⟨t, h1, h2⟩
    rw [subscribe_auth_reject s channelName subscription t h1 h2]
    exact h
  by_cases hdup : ∃ c ∈ chanSubs s channelName,
      c.ws = subscription.ws ∧ c.userId = subscription.userId
  · rw [subscribe_dup s channelName subscription hauth hdup]
    exact h
  have hm := subscribe_main s channelName subscription hauth hdup
  have hcs : ∀ ch2, chanSubs (subscribe s channelName subscription).1 ch2 =
      if ch2 = channelName then chanSubs s channelName ++ [subscription]
      else chanSubs s ch2 := by
    intro ch2
    rw [hm]
    by_cases hc : ch2 = channelName
    · rw [hc]
      simp [chanSubs, aget_aset_self]
    · simp [chanSubs, aget_aset_ne _ _ _ _ hc, hc]
  have hwca : ∀ ws2, aget (subscribe s channelName subscription).1.wsToChannels ws2 =
      if ws2 = subscription.ws
      then some (sadd (wsChans s subscription.ws) channelName)
      else aget s.wsToChannels ws2 := by
    intro ws2
    rw [hm]
    by_cases hw : ws2 = subscription.ws
    · rw [hw]
      simp [aget_aset_self]
    · simp [aget_aset_ne _ _ _ _ hw, hw]
  have hwc : ∀ ws2, wsChans (subscribe s channelName subscription).1 ws2 =
      if ws2 = subscription.ws then sadd (wsChans s subscription.ws) channelName
      else wsChans s ws2 := by
    intro ws2
    rw [wsChans, hwca ws2]
    by_cases hw : ws2 = subscription.ws
    · simp [hw, wsChans]
    · simp [hw, wsChans]
  have hwu : ∀ ws2, aget (subscribe s channelName subscription).1.wsToUser ws2 =
      if ws2 = subscription.ws then some subscription.userId
      else aget s.wsToUser ws2 := by
    intro ws2
    rw [hm]
    by_cases hw : ws2 = subscription.ws
    · rw [hw]
      simp [aget_aset_self]
    · simp [aget_aset_ne _ _ _ _ hw, hw]
  refine ⟨?_, ?_, ?_, ?_⟩
  · intro ch2 ws2
    rw [hcs ch2, hwc ws2]
    by_cases hc : ch2 = channelName
    · by_cases hw : ws2 = subscription.ws
      · rw [if_pos hc, if_pos hw, hc, hw, mem_sadd]
        constructor
        · intro _
          exact Or.inr rfl
        · intro _
          exact ⟨subscription, by simp, rfl⟩
      · rw [if_pos hc, if_neg hw, hc]
        constructor
        · rintro ⟨sub, hsub, hws⟩
          rcases List.mem_append.mp hsub with h1 | h1
          · exact (h.bidi channelName ws2).mp ⟨sub, h1, hws⟩
          · have hse : sub = subscription := by simpa using h1
            rw [hse] at hws
            exact absurd hws.symm hw
        · intro hmem
          rcases (h.bidi channelName ws2).mpr hmem with ⟨sub, hsub, hws⟩
          exact ⟨sub, List.mem_append_left _ hsub, hws⟩
    · by_cases hw : ws2 = subscription.ws
      · rw [if_neg hc, if_pos hw, hw, mem_sadd]
        constructor
        · intro hx
          exact Or.inl ((h.bidi ch2 subscription.ws).mp hx)
        · rintro (h1 | h1)
          · exact (h.bidi ch2 subscription.ws).mpr h1
          · exact absurd h1 hc
      · rw [if_neg hc, if_neg hw]
        exact h.bidi ch2 ws2
  · intro ch2 sub hsub
    rw [hcs ch2] at hsub
    by_cases hc : ch2 = channelName
    · rw [if_pos hc] at hsub
      rcases List.mem_append.mp hsub with h1 | h1
      · exact h.subUid channelName sub h1
      · have hse : sub = subscription := by simpa using h1
        rw [hse]
        exact hop
    · rw [if_neg hc] at hsub
      exact h.subUid ch2 sub hsub
  · intro ch2 ws2
    rw [hcs ch2]
    by_cases hc : ch2 = channelName
    · rw [if_pos hc, List.filter_append]
      by_cases hw : ws2 = subscription.ws
      · rw [hw]
        have hnil : (chanSubs s channelName).filter
            (fun c => decide (c.ws = subscription.ws)) = [] := by
          rw [List.filter_eq_nil_iff]
          intro c hc2
          simp only [decide_eq_true_eq]
          intro hcw
          apply hdup
          exact ⟨c, hc2, hcw, by rw [h.subUid channelName c hc2, hcw, ← hop]⟩
        rw [hnil]
        simp [List.length_filter_le]
      · have hnil2 : List.filter (fun c => decide (c.ws = ws2)) [subscription] = [] := by
          have hne : ¬ subscription.ws = ws2 := fun g => hw g.symm
          simp [hne]
        rw [hnil2, List.append_nil]
        exact h.uniqWs channelName ws2
    · rw [if_neg hc]
      exact h.uniqWs ch2 ws2
  · intro ws2 hsome
    rw [hwu ws2]
    by_cases hw : ws2 = subscription.ws
    · rw [if_pos hw, hop, hw]
    · rw [if_neg hw]
      apply h.wuCoh
      rw [hwca ws2, if_neg hw] at hsome
      exact hsome

end Channels

namespace Channels

theorem inv_of_core_eq (uidOf : WS → String) (s s2 : ManagerState)
    (hc : s2.channels = s.channels) (hw : s2.wsToChannels = s.wsToChannels)
    (hu : s2.wsToUser = s.wsToUser) (h : Inv uidOf s) : Inv uidOf s2 := by
  have hcs : ∀ ch, chanSubs s2 ch = chanSubs s ch := by
    intro ch
    rw [chanSubs, hc, chanSubs]
  have hws : ∀ ws, wsChans s2 ws = wsChans s ws := by
    intro ws
    rw [wsChans, hw, wsChans]
  refine ⟨?_, ?_, ?_, ?_⟩
  · intro ch ws
    rw [hcs, hws]
    exact h.bidi ch ws
  · intro ch sub hsub
    rw [hcs] at hsub
    exact h.subUid ch sub hsub
  · intro ch ws
    rw [hcs]
    exact h.uniqWs ch ws
  · intro ws hsome
    rw [hw] at hsome
    rw [hu]
    exact h.wuCoh ws hsome

theorem teardownChannelStep_state (ws : WS) (userId : String)
    (acc : ManagerState × List BroadcastCall) (ch : String) :
    ∃ mid : ManagerState, (teardownChannelStep ws userId acc ch).1 = unsubscribe mid ch ws
      ∧ mid.channels = acc.1.channels
      ∧ mid.wsToChannels = acc.1.wsToChannels
      ∧ mid.wsToUser = acc.1.wsToUser
      ∧ mid.onlineUsers = aset acc.1.onlineUsers ch (sdel (online acc.1 ch) userId) := by
  unfold teardownChannelStep updateOnlineStatus
  cases htm : aget acc.1.typingUsers ch with
  | none =>
    simp only [htm]
    exact ⟨_, rfl, rfl, rfl, rfl, rfl⟩
  | some tm =>
    simp only [htm]
    cases htu : aget tm userId with
    | none =>
      simp only [htu]
      exact ⟨_, rfl, rfl, rfl, rfl, rfl⟩
    | some user =>
      simp only [htu]
      exact ⟨_, rfl, rfl, rfl, rfl, rfl⟩

theorem teardownChannelStep_inv (uidOf : WS → String) (ws : WS) (userId : String)
    (acc : ManagerState × List BroadcastCall) (ch : String) (h : Inv uidOf acc.1) :
    Inv uidOf (teardownChannelStep ws userId acc ch).1 := by
  rcases teardownChannelStep_state ws userId acc ch with ⟨mid, heq, hc, hw, hu, _⟩
  rw [heq]
  exact unsubscribe_inv uidOf mid ch ws (inv_of_core_eq uidOf acc.1 mid hc hw hu h)

theorem teardownChannelStep_wsChans (uidOf : WS → String) (ws : WS) (userId : String)
    (acc : ManagerState × List BroadcastCall) (ch : String) (h : Inv uidOf acc.1) :
    ∀ c ∈ wsChans (teardownChannelStep ws userId acc ch).1 ws,
      c ∈ wsChans acc.1 ws ∧ ¬ c = ch := by
  rcases teardownChannelStep_state ws userId acc ch with ⟨mid, heq, hcc, hww, huu, _⟩
  rw [heq]
  intro c hm
  have hwsmid : wsChans mid ws = wsChans acc.1 ws := by
    rw [wsChans, hww, wsChans]
  by_cases hch : (aget mid.channels ch).isSome = true
  · rw [wsChans_unsubscribe_self _ _ _ hch, hwsmid, mem_sdel] at hm
    exact hm
  · have hnone : aget mid.channels ch = none := by
      cases hg : aget mid.channels ch with
      | none => rfl
      | some v => rw [hg] at hch; simp at hch
    rw [unsubscribe_noChannel _ _ _ hnone, hwsmid] at hm
    refine ⟨hm, ?_⟩
    intro hceq
    rw [hceq] at hm
    rcases (Inv.bidi h ch ws).mpr hm with ⟨sub, hsub, _⟩
    rw [chanSubs, ← hcc, hnone] at hsub
    simp at hsub

theorem teardown_fold_inv (uidOf : WS → String) (ws : WS) (userId : String)
    (chs : List String) (acc : ManagerState × List BroadcastCall)
    (hinv : Inv uidOf acc.1) (hsub : ∀ c ∈ wsChans acc.1 ws, c ∈ chs) :
    Inv uidOf (chs.foldl (teardownChannelStep ws userId) acc).1
    ∧ ∀ c, ¬ c ∈ wsChans (chs.foldl (teardownChannelStep ws userId) acc).1 ws := by
  induction chs generalizing acc with
  | nil =>
    refine ⟨hinv, ?_⟩
    intro c hc
    exact absurd (hsub c hc) (List.not_mem_nil c)
  | cons ch rest ih =>
    rw [List.foldl_cons]
    apply ih
    · exact teardownChannelStep_inv uidOf ws userId acc ch hinv
    · intro c hc
      rcases teardownChannelStep_wsChans uidOf ws userId acc ch hinv c hc with ⟨h1, h2⟩
      rcases List.mem_cons.mp (hsub c h1) with h3 | h3
      · exact absurd h3 h2
      · exact h3

theorem inv_purge (uidOf : WS → String) (r s2 : ManagerState) (ws : WS)
    (h : Inv uidOf r) (hempty : ∀ c, ¬ c ∈ wsChans r ws)
    (hc : s2.channels = r.channels)
    (hw : s2.wsToChannels = adel r.wsToChannels ws)
    (hu : s2.wsToUser = adel r.wsToUser ws) : Inv uidOf s2 := by
  have hcs : ∀ ch2, chanSubs s2 ch2 = chanSubs r ch2 := by
    intro ch2
    rw [chanSubs, hc, chanSubs]
  have hwc : ∀ ws2, ¬ ws2 = ws → wsChans s2 ws2 = wsChans r ws2 := by
    intro ws2 hne
    rw [wsChans, hw, aget_adel_ne _ _ _ hne, wsChans]
  have hwcself : wsChans s2 ws = [] := by
    rw [wsChans, hw, aget_adel_self]
    rfl
  refine ⟨?_, ?_, ?_, ?_⟩
  · intro ch2 ws2
    rw [hcs]
    by_cases hws : ws2 = ws
    · rw [hws, hwcself]
      constructor
      · rintro ⟨sub, hsub, hws2⟩
        exact absurd ((h.bidi ch2 ws).mp ⟨sub, hsub, hws2⟩) (hempty ch2)
      · intro hx
        simp at hx
    · rw [hwc ws2 hws]
      exact h.bidi ch2 ws2
  · intro ch2 sub hsub
    rw [hcs] at hsub
    exact h.subUid ch2 sub hsub
  · intro ch2 ws2
    rw [hcs]
    exact h.uniqWs ch2 ws2
  · intro ws2 hsome
    rw [hw] at hsome
    rw [hu]
    by_cases hws : ws2 = ws
    · rw [hws, aget_adel_self] at hsome
      simp at hsome
    · rw [aget_adel_ne _ _ _ hws] at hsome
      rw [aget_adel_ne _ _ _ hws]
      exact h.wuCoh ws2 hsome

theorem closure_inv (uidOf : WS → String) (s : ManagerState) (ws : WS)
    (h : Inv uidOf s) : Inv uidOf (handleWebSocketClosure s ws).1 := by
  unfold handleWebSocketClosure
  cases h1 : aget s.wsToChannels ws with
  | none =>
    simp only [h1]
    exact h
  | some chs =>
    simp only [h1]
    cases h2 : aget s.wsToUser ws with
    | none => exact h
    | some userId =>
      dsimp only
      by_cases hu : userId = ""
      · rw [if_pos hu]
        exact h
      · rw [if_neg hu]
        obtain ⟨hrInv, hrEmpty⟩ := teardown_fold_inv uidOf ws userId chs (s, []) h
          (by intro c hc; rw [wsChans, h1] at hc; exact hc)
        exact inv_purge uidOf _ _ ws hrInv hrEmpty rfl rfl rfl

theorem applyOp_inv (uidOf : WS → String) (s : ManagerState) (op : Op)
    (h : Inv uidOf s) (hop : OpFixedUid uidOf op) : Inv uidOf (applyOp s op) := by
  cases op with
  | sub cn subscription => exact subscribe_inv uidOf s cn subscription h hop
  | unsub cn ws => exact unsubscribe_inv uidOf s cn ws h
  | close ws => exact closure_inv uidOf s ws h

theorem initState_inv (uidOf : WS → String) : Inv uidOf initState := by
  refine ⟨?_, ?_, ?_, ?_⟩
  · intro ch ws
    simp [chanSubs, wsChans, initState, aget]
  · intro ch sub hsub
    simp [chanSubs, initState, aget] at hsub
  · intro ch ws
    simp [chanSubs, initState, aget]
  · intro ws hsome
    simp [initState, aget] at hsome

theorem foldl_applyOp_inv (uidOf : WS → String) (ops : List Op) (s : ManagerState)
    (h : Inv uidOf s) (hops : ∀ op ∈ ops, OpFixedUid uidOf op) :
    Inv uidOf (ops.foldl applyOp s) := by
  induction ops generalizing s with
  | nil => exact h
  | cons op rest ih =>
    rw [List.foldl_cons]
    exact ih (applyOp s op) (applyOp_inv uidOf s op h (hops op (List.mem_cons_self _ _)))
      (fun op2 h2 => hops op2 (List.mem_cons_of_mem _ h2))

/-- C2, amended: provided every subscribe in the sequence claims one fixed
userId per connection, after every finite sequence of subscribe,
unsubscribe and teardown operations from the empty state a channel set
holds a subscription of a connection exactly when the channel is in that
connection index entry. -/
theorem bidi_invariant_fixed_userId (uidOf : WS → String) (ops : List Op)
    (hops : ∀ op ∈ ops, OpFixedUid uidOf op) : Bidi (runOps ops) :=
  (foldl_applyOp_inv uidOf ops initState (initState_inv uidOf) hops).bidi

/-- C2 amended witness: a subscribe, an unsubscribe and a teardown under a
single fixed userId keep the two structures consistent. -/
theorem bidi_invariant_fixed_userId_witness :
    (∀ op ∈ ([.sub "a" ⟨fws1, "u", "i"⟩, .unsub "a" fws1, .close fws1] : List Op),
        OpFixedUid (fun _ => "u") op)
    ∧ Bidi (runOps [.sub "a" ⟨fws1, "u", "i"⟩, .unsub "a" fws1, .close fws1]) :=
  ⟨by simp [OpFixedUid],
   bidi_invariant_fixed_userId (fun _ => "u") _ (by simp [OpFixedUid])⟩

end Channels

namespace Channels

theorem chanSubs_subscribe_main (s : ManagerState) (channelName : String)
    (subscription : ChannelSubscription)
    (hauth : ¬ ∃ t, subscription.ws.user = some t ∧ ¬ t.userId = subscription.userId)
    (hdup : ¬ ∃ c ∈ chanSubs s channelName,
        c.ws = subscription.ws ∧ c.userId = subscription.userId) (ch2 : String) :
    chanSubs (subscribe s channelName subscription).1 ch2 =
      if ch2 = channelName then chanSubs s channelName ++ [subscription]
      else chanSubs s ch2 := by
  rw [subscribe_main s channelName subscription hauth hdup]
  by_cases hc : ch2 = channelName
  · rw [hc]
    simp [chanSubs, aget_aset_self]
  · simp [chanSubs, aget_aset_ne _ _ _ _ hc, hc]

theorem online_subscribe_main (s : ManagerState) (channelName : String)
    (subscription : ChannelSubscription)
    (hauth : ¬ ∃ t, subscription.ws.user = some t ∧ ¬ t.userId = subscription.userId)
    (hdup : ¬ ∃ c ∈ chanSubs s channelName,
        c.ws = subscription.ws ∧ c.userId = subscription.userId) (ch2 : String) :
    online (subscribe s channelName subscription).1 ch2 =
      if ch2 = channelName then sadd (online s channelName) subscription.userId
      else online s ch2 := by
  rw [subscribe_main s channelName subscription hauth hdup]
  by_cases hc : ch2 = channelName
  · rw [hc]
    simp [online, aget_aset_self]
  · simp [online, aget_aset_ne _ _ _ _ hc, hc]

theorem subscribe_invP (uidOf : WS → String) (W : List WS) (s : ManagerState)
    (channelName : String) (subscription : ChannelSubscription) (h : InvP uidOf W s)
    (hop : subscription.userId = uidOf subscription.ws) (hW : subscription.ws ∈ W) :
    InvP uidOf W (subscribe s channelName subscription).1 := by
  by_cases hauth : ∃ t, subscription.ws.user = some t ∧ ¬ t.userId = subscription.userId
  · rcases hauth with ⟨t, h1, h2⟩
    rw [subscribe_auth_reject s channelName subscription t h1 h2]
    exact h
  by_cases hdup : ∃ c ∈ chanSubs s channelName,
      c.ws = subscription.ws ∧ c.userId = subscription.userId
  · rw [subscribe_dup s channelName subscription hauth hdup]
    exact h
  refine ⟨subscribe_inv uidOf s channelName subscription h.toInv hop, ?_, ?_⟩
  · intro ch2 u
    rw [chanSubs_subscribe_main s channelName subscription hauth hdup ch2,
        online_subscribe_main s channelName subscription hauth hdup ch2]
    by_cases hc : ch2 = channelName
    · rw [if_pos hc, if_pos hc, mem_sadd]
      constructor
      · rintro (h1 | h1)
        · rcases (h.pres channelName u).mp h1 with ⟨sub, hs, hu2⟩
          exact ⟨sub, List.mem_append_left _ hs, hu2⟩
        · exact ⟨subscription, by simp, h1.symm⟩
      · rintro ⟨sub, hs, hu2⟩
        rcases List.mem_append.mp hs with h1 | h1
        · exact Or.inl ((h.pres channelName u).mpr ⟨sub, h1, hu2⟩)
        · have hse : sub = subscription := by simpa using h1
          rw [hse] at hu2
          exact Or.inr hu2.symm
    · rw [if_neg hc, if_neg hc]
      exact h.pres ch2 u
  · intro ch2 sub hsub
    rw [chanSubs_subscribe_main s channelName subscription hauth hdup ch2] at hsub
    by_cases hc : ch2 = channelName
    · rw [if_pos hc] at hsub
      rcases List.mem_append.mp hsub with h1 | h1
      · exact h.subsIn channelName sub h1
      · have hse : sub = subscription := by simpa using h1
        rw [hse]
        exact hW
    · rw [if_neg hc] at hsub
      exact h.subsIn ch2 sub hsub

theorem teardownChannelStep_invP (uidOf : WS → String) (W : List WS) (ws : WS)
    (userId : String) (acc : ManagerState × List BroadcastCall) (ch : String)
    (h : InvP uidOf W acc.1) (hdist : DistinctUids uidOf W) (hWws : ws ∈ W)
    (huid : userId = uidOf ws) :
    InvP uidOf W (teardownChannelStep ws userId acc ch).1 := by
  rcases teardownChannelStep_state ws userId acc ch with ⟨mid, heq, hcc, hww, huu, hoo⟩
  rw [heq]
  have hmidInv : Inv uidOf mid := inv_of_core_eq uidOf acc.1 mid hcc hww huu h.toInv
  have hcsmid : ∀ c, chanSubs mid c = chanSubs acc.1 c := by
    intro c
    rw [chanSubs, hcc, chanSubs]
  have honline : (unsubscribe mid ch ws).onlineUsers = mid.onlineUsers :=
    unsubscribe_onlineUsers mid ch ws
  refine ⟨unsubscribe_inv uidOf mid ch ws hmidInv, ?_, ?_⟩
  · intro ch2 u
    by_cases hc : ch2 = ch
    · have honl : online (unsubscribe mid ch ws) ch = sdel (online acc.1 ch) userId := by
        rw [online, honline, hoo, aget_aset_self]
        rfl
      have hrm : chanSubs (unsubscribe mid ch ws) ch =
          removeFirstWs (chanSubs acc.1 ch) ws := by
        rw [chanSubs_unsubscribe_self, hcsmid]
      rw [hc, honl, hrm, mem_sdel]
      by_cases huu2 : u = userId
      · rw [huu2]
        constructor
        · rintro ⟨_, habs⟩
          exact absurd rfl habs
        · rintro ⟨sub, hsub, hu2⟩
          exfalso
          have hmem : sub ∈ chanSubs acc.1 ch := mem_of_mem_removeFirstWs hsub
          have h1 : sub.userId = uidOf sub.ws := h.toInv.subUid ch sub hmem
          have h2 : uidOf sub.ws = uidOf ws := by rw [← h1, hu2, huid]
          have h3 : sub.ws = ws := hdist sub.ws (h.subsIn ch sub hmem) ws hWws h2
          exact (not_mem_ws_removeFirstWs _ _ (h.toInv.uniqWs ch ws) sub hsub) h3
      · constructor
        · rintro ⟨h1, _⟩
          rcases (h.pres ch u).mp h1 with ⟨sub, hsub, hu2⟩
          refine ⟨sub, ?_, hu2⟩
          apply mem_removeFirstWs_of_ne hsub
          intro hws
          have h1b : sub.userId = uidOf sub.ws := h.toInv.subUid ch sub hsub
          rw [hws, ← huid] at h1b
          exact huu2 (hu2.symm.trans h1b)
        · rintro ⟨sub, hsub, hu2⟩
          exact ⟨(h.pres ch u).mpr ⟨sub, mem_of_mem_removeFirstWs hsub, hu2⟩, huu2⟩
    · have honl2 : online (unsubscribe mid ch ws) ch2 = online acc.1 ch2 := by
        rw [online, honline, hoo, aget_aset_ne _ _ _ _ hc, online]
      rw [honl2, chanSubs_unsubscribe_ne _ _ _ _ hc, hcsmid]
      exact h.pres ch2 u
  · intro ch2 sub hsub
    by_cases hc : ch2 = ch
    · rw [hc, chanSubs_unsubscribe_self, hcsmid] at hsub
      exact h.subsIn ch sub (mem_of_mem_removeFirstWs hsub)
    · rw [chanSubs_unsubscribe_ne _ _ _ _ hc, hcsmid] at hsub
      exact h.subsIn ch2 sub hsub

theorem teardown_fold_invP (uidOf : WS → String) (W : List WS) (ws : WS)
    (userId : String) (chs : List String) (acc : ManagerState × List BroadcastCall)
    (hinv : InvP uidOf W acc.1) (hdist : DistinctUids uidOf W) (hWws : ws ∈ W)
    (huid : userId = uidOf ws) (hsub : ∀ c ∈ wsChans acc.1 ws, c ∈ chs) :
    InvP uidOf W (chs.foldl (teardownChannelStep ws userId) acc).1
    ∧ ∀ c, ¬ c ∈ wsChans (chs.foldl (teardownChannelStep ws userId) acc).1 ws := by
  induction chs generalizing acc with
  | nil =>
    refine ⟨hinv, ?_⟩
    intro c hc
    exact absurd (hsub c hc) (List.not_mem_nil c)
  | cons ch rest ih =>
    rw [List.foldl_cons]
    apply ih
    · exact teardownChannelStep_invP uidOf W ws userId acc ch hinv hdist hWws huid
    · intro c hc
      rcases teardownChannelStep_wsChans uidOf ws userId acc ch hinv.toInv c hc with ⟨h1, h2⟩
      rcases List.mem_cons.mp (hsub c h1) with h3 | h3
      · exact absurd h3 h2
      · exact h3

theorem inv_purgeP (uidOf : WS → String) (W : List WS) (r s2 : ManagerState) (ws : WS)
    (h : InvP uidOf W r) (hempty : ∀ c, ¬ c ∈ wsChans r ws)
    (hc : s2.channels = r.channels)
    (hw : s2.wsToChannels = adel r.wsToChannels ws)
    (hu : s2.wsToUser = adel r.wsToUser ws)
    (ho : s2.onlineUsers = r.onlineUsers) : InvP uidOf W s2 := by
  have hcs : ∀ ch2, chanSubs s2 ch2 = chanSubs r ch2 := by
    intro ch2
    rw [chanSubs, hc, chanSubs]
  refine ⟨inv_purge uidOf r s2 ws h.toInv hempty hc hw hu, ?_, ?_⟩
  · intro ch2 u
    rw [hcs, online, ho]
    exact h.pres ch2 u
  · intro ch2 sub hsub
    rw [hcs] at hsub
    exact h.subsIn ch2 sub hsub

theorem closure_invP (uidOf : WS → String) (W : List WS) (s : ManagerState) (ws : WS)
    (h : InvP uidOf W s) (hdist : DistinctUids uidOf W) (hWws : ws ∈ W) :
    InvP uidOf W (handleWebSocketClosure s ws).1 := by
  unfold handleWebSocketClosure
  cases h1 : aget s.wsToChannels ws with
  | none =>
    simp only [h1]
    exact h
  | some chs =>
    simp only [h1]
    cases h2 : aget s.wsToUser ws with
    | none => exact h
    | some userId =>
      dsimp only
      by_cases hu : userId = ""
      · rw [if_pos hu]
        exact h
      · rw [if_neg hu]
        have huid : userId = uidOf ws := by
          have hcoh := h.toInv.wuCoh ws (by rw [h1]; rfl)
          exact Option.some.inj (h2.symm.trans hcoh)
        obtain ⟨hrInv, hrEmpty⟩ := teardown_fold_invP uidOf W ws userId chs (s, []) h
          hdist hWws huid (by intro c hc; rw [wsChans, h1] at hc; exact hc)
        exact inv_purgeP uidOf W _ _ ws hrInv hrEmpty rfl rfl rfl rfl

theorem applyOp_invP (uidOf : WS → String) (W : List WS) (s : ManagerState) (op : Op)
    (h : InvP uidOf W s) (hdist : DistinctUids uidOf W) (hop : OpPresOk uidOf W op) :
    InvP uidOf W (applyOp s op) := by
  cases op with
  | sub cn subscription => exact subscribe_invP uidOf W s cn subscription h hop.1 hop.2
  | unsub cn ws => exact hop.elim
  | close ws => exact closure_invP uidOf W s ws h hdist hop

theorem initState_invP (uidOf : WS → String) (W : List WS) : InvP uidOf W initState := by
  refine ⟨initState_inv uidOf, ?_, ?_⟩
  · intro ch u
    simp [online, chanSubs, initState, aget]
  · intro ch sub hsub
    simp [chanSubs, initState, aget] at hsub

theorem foldl_applyOp_invP (uidOf : WS → String) (W : List WS) (ops : List Op)
    (s : ManagerState) (h : InvP uidOf W s) (hdist : DistinctUids uidOf W)
    (hops : ∀ op ∈ ops, OpPresOk uidOf W op) : InvP uidOf W (ops.foldl applyOp s) := by
  induction ops generalizing s with
  | nil => exact h
  | cons op rest ih =>
    rw [List.foldl_cons]
    exact ih (applyOp s op)
      (applyOp_invP uidOf W s op h hdist (hops op (List.mem_cons_self _ _)))
      (fun op2 h2 => hops op2 (List.mem_cons_of_mem _ h2))

/-- C3, amended: for every finite sequence of subscribe and teardown
operations from the empty state (no standalone unsubscribe) in which each
connection always subscribes under one fixed userId and distinct
connections carry distinct userIds, a userId is in a channel presence set
exactly when the channel holds a subscription for it. -/
theorem presence_invariant_restricted (uidOf : WS → String) (W : List WS)
    (hdist : DistinctUids uidOf W) (ops : List Op)
    (hops : ∀ op ∈ ops, OpPresOk uidOf W op) : Pres (runOps ops) :=
  (foldl_applyOp_invP uidOf W ops initState (initState_invP uidOf W) hdist hops).pres

/-- C3 amended witness: one subscribe followed by a teardown of the same
single connection keeps presence consistent. -/
theorem presence_invariant_restricted_witness :
    DistinctUids (fun _ => "u") [fws1]
    ∧ (∀ op ∈ ([.sub "a" ⟨fws1, "u", "i"⟩, .close fws1] : List Op),
        OpPresOk (fun _ => "u") [fws1] op)
    ∧ Pres (runOps [.sub "a" ⟨fws1, "u", "i"⟩, .close fws1]) :=
  ⟨by intro w1 h1 w2 h2 _
      simp only [List.mem_singleton] at h1 h2
      rw [h1, h2],
   by simp [OpPresOk],
   presence_invariant_restricted (fun _ => "u") [fws1]
     (by intro w1 h1 w2 h2 _
         simp only [List.mem_singleton] at h1 h2
         rw [h1, h2]) _ (by simp [OpPresOk])⟩

end Channels
